import Mathlib

/-!
Verification of the package-resolution and upgrade-orchestration core of the
gravity repository (lib/pack utilities and lib/update executor dispatch).

The development shallowly embeds the Go code:
pure functions become Lean functions, the `PackageService` collaborator
becomes a pure store structure, iteration with an early error return becomes
an explicit `Except`-valued fold, and closure-captured mutable accumulators
become folded state.  Version handling (the coreos go-semver library used via
`loc.Locator.SemVer`) and the `loc`/`storage` value types are not part of the
excerpted sources, so they are modelled from the spec where marked.
-/

/-! ## Go semantic versions

Modelled from the spec: Locator versions parse as semantic versions
(major.minor.patch, optional pre-release after the first dash, optional
metadata after the first plus), and comparison is the strict semantic-version
precedence: major, minor, patch numerically, then pre-release (absent
pre-release is greater; identifiers compare numerically when both numeric,
numeric below non-numeric, otherwise as strings; a longer identifier list
wins when the shorter is a prefix).  Metadata never participates in
precedence.  This mirrors the go-semver library the code calls. -/

/-- Splits a character list at the first occurrence of `c`: returns the part
before it, and the part after it when it occurs (Go `splitOff`). -/
def breakOn (c : Char) : List Char → (List Char × Option (List Char))
  | [] => ([], none)
  | x :: xs =>
    if x = c then ([], some xs)
    else
      let r := breakOn c xs
      (x :: r.1, r.2)

/-- Splits a character list on every dot, like Go `strings.Split` (an empty
input yields one empty part). -/
def splitDots : List Char → List (List Char)
  | [] => [[]]
  | x :: xs =>
    if x = '.' then [] :: splitDots xs
    else
      match splitDots xs with
      | [] => [[x]]
      | p :: ps => (x :: p) :: ps

/-- Reads a non-empty all-digit character list as a natural number. -/
def digitsToNat : List Char → Option Nat
  | [] => none
  | cs => cs.foldl (fun acc c =>
      match acc with
      | none => none
      | some n => if c.isDigit then some (n * 10 + (c.toNat - 48)) else none) (some 0)

/-- Go `strconv.ParseInt`/`Atoi` in base 10 on a 64-bit integer: an optional
sign followed by digits, within the int64 range. -/
def parseGoInt (cs : List Char) : Option Int :=
  match cs with
  | '+' :: rest =>
    (digitsToNat rest).bind fun n => if n < 2 ^ 63 then some (Int.ofNat n) else none
  | '-' :: rest =>
    (digitsToNat rest).bind fun n => if n ≤ 2 ^ 63 then some (-(Int.ofNat n)) else none
  | _ =>
    (digitsToNat cs).bind fun n => if n < 2 ^ 63 then some (Int.ofNat n) else none

/-- A parsed semantic version. -/
structure SemVer where
  major : Int
  minor : Int
  patch : Int
  preRelease : String
  metadata : String
deriving DecidableEq

/-- Modelled from the spec: semantic-version parsing (go-semver
`Version.Set`): metadata is split off at the first plus, then the pre-release
at the first dash, and the remainder must be exactly three dot-separated
64-bit integers.  (Splitting on every dot and requiring three parts is
extensionally the Go `SplitN(_, ".", 3)` followed by `ParseInt`, since a
third part containing a dot never parses as an integer.) -/
def SemVer.parse (s : String) : Option SemVer :=
  let m := breakOn '+' s.data
  let meta := m.2.getD []
  let p := breakOn '-' m.1
  let pre := p.2.getD []
  match splitDots p.1 with
  | [a, b, c] =>
    match parseGoInt a, parseGoInt b, parseGoInt c with
    | some ma, some mi, some pa => some ⟨ma, mi, pa, String.mk pre, String.mk meta⟩
    | _, _, _ => none
  | _ => none

/-- Renders a version back to text (go-semver `Version.String`), used in
error messages. -/
def SemVer.toStr (v : SemVer) : String :=
  toString v.major ++ "." ++ toString v.minor ++ "." ++ toString v.patch ++
    (if v.preRelease = ("") then ("") else ("-") ++ v.preRelease) ++
    (if v.metadata = ("") then ("") else ("+") ++ v.metadata)

/-- Three-way comparison from a linear order (used at `Char` and `Int`;
Go compares strings bytewise, which agrees with the character order on
UTF-8 text). -/
def ltCmp {α : Type} [LinearOrder α] (a b : α) : Ordering :=
  if a < b then .lt else if b < a then .gt else .eq

/-- Lexicographic comparison of lists by an element comparator; a strict
prefix is smaller (go-semver `recursiveCompare`/`recursivePreReleaseCompare`
shape). -/
def lexCmp {α : Type} (c : α → α → Ordering) : List α → List α → Ordering
  | [], [] => .eq
  | [], _ :: _ => .lt
  | _ :: _, [] => .gt
  | a :: as, b :: bs => (c a b).then (lexCmp c as bs)

/-- Compares one pre-release identifier: numerically when both sides parse
as integers, numeric below non-numeric, otherwise as strings. -/
def partCmp (a b : List Char) : Ordering :=
  match parseGoInt a, parseGoInt b with
  | some x, some y => ltCmp x y
  | some _, none => .lt
  | none, some _ => .gt
  | none, none => lexCmp ltCmp a b

/-- Compares pre-release strings: an absent pre-release has higher
precedence; otherwise the dot-separated identifier lists compare
lexicographically (go-semver `preReleaseCompare`). -/
def preCmp (a b : String) : Ordering :=
  if a = ("") then (if b = ("") then .eq else .gt)
  else if b = ("") then .lt
  else lexCmp partCmp (splitDots a.data) (splitDots b.data)

/-- Full semantic-version precedence (go-semver `Version.Compare`): major,
minor, patch, then pre-release; metadata is ignored. -/
def semverCompare (v w : SemVer) : Ordering :=
  (ltCmp v.major w.major).then
    ((ltCmp v.minor w.minor).then
      ((ltCmp v.patch w.patch).then (preCmp v.preRelease w.preRelease)))



/-! ## Comparator laws

The order-independence and maximality arguments about the latest-package
scan need the semantic-version comparator to be an oriented, transitive
three-way comparison.  `CmpLaws` bundles exactly the facts used. -/

/-- Laws of a three-way comparator: orientation and transitivity. -/
structure CmpLaws {α : Type} (c : α → α → Ordering) : Prop where
  symm : ∀ a b, c a b = (c b a).swap
  lt_trans : ∀ a b d, c a b = .lt → c b d = .lt → c a d = .lt
  eq_lt : ∀ a b d, c a b = .eq → c b d = .lt → c a d = .lt
  lt_eq : ∀ a b d, c a b = .lt → c b d = .eq → c a d = .lt
  eq_trans : ∀ a b d, c a b = .eq → c b d = .eq → c a d = .eq

/-! ## Errors and the data model

The trace error classes the excerpt uses: not-found, bad-parameter, the
malformed-version failure of `Locator.SemVer` (modelled from the spec), and
wrapped I/O failures.  `trace.Wrap` preserves the class, so wrapping is the
identity here. -/

/-- Error classes of the `trace` package as used by the excerpt. -/
inductive Err where
  | notFound (msg : String)
  | badParameter (msg : String)
  | malformedVersion (ver : String)
  | ioErr (msg : String)
deriving DecidableEq

deriving instance DecidableEq for Except

/-- `trace.IsNotFound`. -/
def Err.isNotFound : Err → Bool
  | .notFound _ => true
  | _ => false

/-- Modelled from the spec: the immutable identity of a package —
repository, name, semantic-version string (`loc.Locator`). -/
structure Locator where
  Repository : String
  Name : String
  Version : String
deriving DecidableEq

/-- The canonical placeholder version of a package line. -/
def ZeroVersionStr : String := "0.0.0"

/-- Modelled from the spec: `Locator.ZeroVersion` keeps the line's identity
and replaces the version with the canonical placeholder. -/
def Locator.ZeroVersion (l : Locator) : Locator :=
  { l with Version := ZeroVersionStr }

/-- Modelled from the spec: the textual form `repository/name:version`. -/
def Locator.toStr (l : Locator) : String :=
  l.Repository ++ "/" ++ l.Name ++ ":" ++ l.Version

/-- Label sets are string-to-string mappings; represented as association
lists with Go-map lookup/insert semantics. -/
abbrev Labels := List (String × String)

/-- First-match association lookup (Go map read). -/
def alookup {α : Type} : List (String × α) → String → Option α
  | [], _ => none
  | kv :: rest, key => if kv.1 = key then some kv.2 else alookup rest key

/-- Association insert that overwrites an existing key (Go map write). -/
def ainsert {α : Type} : List (String × α) → String → α → List (String × α)
  | [], key, v => [(key, v)]
  | kv :: rest, key, v =>
    if kv.1 = key then (key, v) :: rest else kv :: ainsert rest key v

/-- Modelled from the spec: a discovered package — its locator plus its
runtime label set (`pack.PackageEnvelope`; the fields the excerpt never
reads are omitted). -/
structure PackageEnvelope where
  Locator : Locator
  RuntimeLabels : Labels
deriving DecidableEq

/-- Modelled from the spec: `PackageEnvelope.HasLabel` checks one key/value
pair of the label set. -/
def PackageEnvelope.HasLabel (e : PackageEnvelope) (key val : String) : Bool :=
  alookup e.RuntimeLabels key == some val

/-- Label keys the excerpt relies on (spec §6 label vocabulary). -/
def ConfigLabel : String := "config"

/-- Marks the currently installed package of a line. -/
def InstalledLabel : String := "installed"

/-- Free-form purpose metadata key. -/
def PurposeLabel : String := "purpose"

/-- Modelled from the spec §6: the `PackageService` collaborator.  The
enumeration capability (`GetRepositories`/`GetPackages`) is a pure store:
an association list from repository name to its envelopes in enumeration
order.  `getConfig` is the abstract outcome of `GetConfigPackage`'s archive
reading, manifest extraction and argument parsing (byte-level I/O the spec
places out of scope), keyed by the source locator and the argument list. -/
structure PackageService where
  repos : List (String × List PackageEnvelope)
  getConfig : Locator → List String → Except Err Unit

/-- `GetRepositories` of the store. -/
def GetRepositories (p : PackageService) : List String :=
  p.repos.map Prod.fst

/-- `GetPackages` of the store: the envelopes of one repository in
enumeration order. -/
def GetPackages (p : PackageService) (repo : String) : List PackageEnvelope :=
  (alookup p.repos repo).getD []

/-- The store's envelope enumeration across a list of repositories, in
order. -/
def enumRepos (p : PackageService) : List String → List PackageEnvelope
  | [] => []
  | r :: rs => GetPackages p r ++ enumRepos p rs

/-- The envelope enumeration a scan visits: one repository when a name is
given, every repository otherwise. -/
def enumEnvs (p : PackageService) (repository : String) : List PackageEnvelope :=
  if repository = ("") then enumRepos p (GetRepositories p) else GetPackages p repository

/-! ## Iteration (ForeachPackage / ForeachPackageInRepo)

Go iterates with a callback returning `error`; a non-nil result aborts the
loop and propagates.  Callbacks that mutate captured variables are embedded
by threading the captured state through an `Except`-valued fold. -/

/-- A left fold that stops at the first error (a Go loop whose body may
return early). -/
def foldE {σ α : Type} (f : σ → α → Except Err σ) : σ → List α → Except Err σ
  | s, [] => .ok s
  | s, a :: l =>
    match f s a with
    | .error e => .error e
    | .ok s' => foldE f s' l

/-- `ForeachPackageInRepo`: runs the callback over one repository's
envelopes, aborting on the first callback error.  The callback's captured
state is threaded explicitly. -/
def ForeachPackageInRepo {σ : Type} (p : PackageService) (repo : String)
    (fn : PackageEnvelope → σ → Except Err σ) (s : σ) : Except Err σ :=
  foldE (fun s e => fn e s) s (GetPackages p repo)

/-- `ForeachPackage`: runs the callback over every repository in
`GetRepositories` order. -/
def ForeachPackage {σ : Type} (p : PackageService)
    (fn : PackageEnvelope → σ → Except Err σ) (s : σ) : Except Err σ :=
  foldE (fun s r => ForeachPackageInRepo p r fn s) s (GetRepositories p)

/-! ## The package resolver (`src/unnamed/part_000`) -/

/-- `FindPackage`: scans every envelope; the callback overwrites the
captured candidate on every predicate match; not-found when the scan ends
with no candidate. -/
def FindPackage (p : PackageService) (fn : PackageEnvelope → Bool) :
    Except Err PackageEnvelope :=
  match ForeachPackage p (fun e s => .ok (if fn e then some e else s))
      (none : Option PackageEnvelope) with
  | .error err => .error err
  | .ok none => .error (.notFound ("package not found"))
  | .ok (some env) => .ok env

/-- `FindConfigPackage`: the envelope whose `config` label equals the
filter's zero-version string; a not-found from the scan is re-worded. -/
def FindConfigPackage (p : PackageService) (filter : Locator) : Except Err Locator :=
  match FindPackage p (fun e => e.HasLabel ConfigLabel filter.ZeroVersion.toStr) with
  | .error e =>
    if e.isNotFound then
      .error (.notFound ("no configuration package for " ++ filter.toStr ++ " found"))
    else .error e
  | .ok env => .ok env.Locator

/-- One step of `FindLatestPackagePredicate`'s callback: skip non-matching
envelopes; adopt the first match unconditionally; afterwards compare only
when both the current maximum and the candidate parse, replacing on a
strictly greater candidate. -/
def latestStep (filter : PackageEnvelope → Bool) (max : Option Locator)
    (e : PackageEnvelope) : Option Locator :=
  if filter e = false then max
  else
    match max with
    | none => some e.Locator
    | some m =>
      match SemVer.parse m.Version with
      | none => some m
      | some vera =>
        match SemVer.parse e.Locator.Version with
        | none => some m
        | some verb =>
          if semverCompare verb vera = .gt then some e.Locator else some m

/-- `FindLatestPackagePredicate`: accumulates the maximum-version matching
envelope over one repository (or all when the name is empty); not-found when
nothing matched. -/
def FindLatestPackagePredicate (p : PackageService) (repository : String)
    (filter : PackageEnvelope → Bool) : Except Err Locator :=
  let run :=
    if repository ≠ ("") then
      ForeachPackageInRepo p repository (fun e s => .ok (latestStep filter s e))
        (none : Option Locator)
    else
      ForeachPackage p (fun e s => .ok (latestStep filter s e))
        (none : Option Locator)
  match run with
  | .error e => .error e
  | .ok none => .error (.notFound ("latest package not found"))
  | .ok (some m) => .ok m

/-- `FindLatestPackage`: latest package in the filter's repository with the
filter's repository and name; a not-found is re-worded. -/
def FindLatestPackage (p : PackageService) (filter : Locator) : Except Err Locator :=
  match FindLatestPackagePredicate p filter.Repository
      (fun e => e.Locator.Repository == filter.Repository &&
        e.Locator.Name == filter.Name) with
  | .error e =>
    if e.isNotFound then
      .error (.notFound ("latest package with filter " ++ filter.toStr ++ " not found"))
    else .error e
  | .ok l => .ok l

/-- One step of `FindNewerPackages`' callback: name mismatches are skipped;
otherwise both the filter's and the envelope's versions must parse — a
parse failure is returned as an error, aborting the scan. -/
def newerStep (filter : Locator) (e : PackageEnvelope) (result : List Locator) :
    Except Err (List Locator) :=
  if e.Locator.Name ≠ filter.Name then .ok result
  else
    match SemVer.parse filter.Version with
    | none => .error (.malformedVersion filter.Version)
    | some vera =>
      match SemVer.parse e.Locator.Version with
      | none => .error (.malformedVersion e.Locator.Version)
      | some verb =>
        .ok (if semverCompare verb vera = .gt then result ++ [e.Locator] else result)

/-- `FindNewerPackages`: every locator in the filter's repository sharing
its name with a strictly greater version. -/
def FindNewerPackages (p : PackageService) (filter : Locator) :
    Except Err (List Locator) :=
  ForeachPackageInRepo p filter.Repository (newerStep filter) []

/-- Modelled from the spec: `storage.PackageUpdate`, a proposed transition
between two locators. -/
structure PackageUpdate where
  From : Locator
  To : Locator
deriving DecidableEq

/-- `FindPackageUpdate`: resolves the latest package for `pkg`, parses both
versions, and yields an update descriptor only on a strictly greater latest
version; otherwise not-found. -/
def FindPackageUpdate (p : PackageService) (pkg : Locator) : Except Err PackageUpdate :=
  match FindLatestPackage p pkg with
  | .error e => .error e
  | .ok latestPackage =>
    match SemVer.parse pkg.Version with
    | none => .error (.malformedVersion pkg.Version)
    | some currentVersion =>
      match SemVer.parse latestPackage.Version with
      | none => .error (.malformedVersion latestPackage.Version)
      | some latestVersion =>
        if semverCompare latestVersion currentVersion = .gt then
          .ok ⟨pkg, latestPackage⟩
        else
          .error (.notFound (pkg.toStr ++ " is already at the latest version"))

/-- `CheckUpdatePackage`: repository and name must match (else
bad-parameter), both versions must parse, and the source version must be
strictly below the target (else bad-parameter). -/
def CheckUpdatePackage (fromLoc toLoc : Locator) : Except Err Unit :=
  if fromLoc.Repository ≠ toLoc.Repository ∨ fromLoc.Name ≠ toLoc.Name then
    .error (.badParameter ("you are attempting to upgrade to " ++ toLoc.Name ++
      " " ++ toLoc.Version ++ ", but different application is installed: " ++
      fromLoc.Name ++ " " ++ fromLoc.Version))
  else
    match SemVer.parse fromLoc.Version with
    | none => .error (.malformedVersion fromLoc.Version)
    | some fromVer =>
      match SemVer.parse toLoc.Version with
      | none => .error (.malformedVersion toLoc.Version)
      | some toVer =>
        if ¬ (semverCompare fromVer toVer = .lt) then
          .error (.badParameter ("update version (" ++ toVer.toStr ++
            ") must be greater than the currently installed version (" ++
            fromVer.toStr ++ ")"))
        else .ok ()

/-- `ConfigLabels`: the canonical label set assigning the configuration
role for a package line. -/
def ConfigLabels (loc : Locator) (purpose : String) : Labels :=
  [(ConfigLabel, loc.ZeroVersion.toStr), (PurposeLabel, purpose)]

/-- `GetConfigPackage` builds the configuration artifact from the source
package's manifest and the arguments; its archive/manifest work is external
I/O, represented by the service's abstract outcome (the `confLoc` parameter
is unused by the Go body as well). -/
def GetConfigPackage (p : PackageService) (loc _confLoc : Locator)
    (args : List String) : Except Err Unit :=
  p.getConfig loc args

/-- The label set `ConfigurePackage` attaches: the canonical
config-ownership entry first, then every caller label inserted over it. -/
def configureLabels (loc : Locator) (labels : Labels) : Labels :=
  labels.foldl (fun m kv => ainsert m kv.1 kv.2) [(ConfigLabel, loc.ZeroVersion.toStr)]

/-- Appends an envelope to its repository's package list, creating the
repository at the end of the store when absent. -/
def addToRepo : List (String × List PackageEnvelope) → String → PackageEnvelope →
    List (String × List PackageEnvelope)
  | [], repo, e => [(repo, [e])]
  | rp :: rest, repo, e =>
    if rp.1 = repo then (rp.1, rp.2 ++ [e]) :: rest else rp :: addToRepo rest repo e

/-- Modelled from the spec §6: `CreatePackage` materializes a new immutable
package with the given label set; the byte stream itself is irrelevant to
resolution. -/
def CreatePackage (p : PackageService) (loc : Locator) (labels : Labels) :
    PackageService :=
  { p with repos := addToRepo p.repos loc.Repository ⟨loc, labels⟩ }

/-- `ConfigurePackage`: builds the configuration artifact, merges the
caller's labels over the canonical config-ownership label, and commits the
result as a new package. -/
def ConfigurePackage (p : PackageService) (loc confLoc : Locator)
    (args : List String) (labels : Labels) : Except Err PackageService :=
  match GetConfigPackage p loc confLoc args with
  | .error e => .error e
  | .ok _ => .ok (CreatePackage p confLoc (configureLabels loc labels))

/-! ## Unpacking (`PackagePath`, `IsUnpacked`, `Unpack`, `UnpackIfNotUnpacked`)

The filesystem is a map from path to an is-directory flag; `state.GetStateDir`,
`ReadPackage`'s byte stream and the untar outcome are external and appear as
abstract results.  A ghost counter records every performed extraction (the
read-and-untar step). -/

/-- The filesystem and external-I/O world `Unpack` acts on. -/
structure FSWorld where
  dirs : List (String × Bool)
  stateDirRes : Except Err String
  readPackageRes : Locator → Except Err Unit
  untarRes : Except Err Unit
  unpackCount : Nat

/-- `PackagePath`: base directory, repository, name, version. -/
def PackagePath (baseDir : String) (loc : Locator) : String :=
  baseDir ++ "/" ++ loc.Repository ++ "/" ++ loc.Name ++ "/" ++ loc.Version

/-- `IsUnpacked`: stat the target; absent means not unpacked, a
non-directory is an error (stat of the empty path fails as absent). -/
def IsUnpacked (w : FSWorld) (targetDir : String) : Except Err Bool :=
  match alookup w.dirs targetDir with
  | none => .ok false
  | some true => .ok true
  | some false =>
    .error (.ioErr ("expected " ++ targetDir ++ " to be a directory"))

/-- The default unpack location under the state directory
(`defaults.LocalDir/PackagesDir/UnpackedDir`). -/
def defaultUnpackedDir (stateDir : String) (loc : Locator) : String :=
  PackagePath (stateDir ++ "/local/packages/unpacked") loc

/-- `Unpack`: resolve an empty target to the default location, make the
target directory, read the package and untar it into the target.  The
world is returned alongside the outcome because directory creation
persists even when a later step fails. -/
def Unpack (loc : Locator) (targetDir : String) (w : FSWorld) :
    FSWorld × Except Err Unit :=
  match (if targetDir = ("") then
      w.stateDirRes.map (fun sd => defaultUnpackedDir sd loc)
    else .ok targetDir) with
  | .error e => (w, .error e)
  | .ok target =>
    match alookup w.dirs target with
    | some false => (w, .error (.ioErr ("mkdir failed: " ++ target)))
    | _ =>
      let w1 := { w with dirs := ainsert w.dirs target true }
      match w1.readPackageRes loc with
      | .error e => (w1, .error e)
      | .ok _ =>
        let w2 := { w1 with unpackCount := w1.unpackCount + 1 }
        match w2.untarRes with
        | .error e => (w2, .error e)
        | .ok _ => (w2, .ok ())

/-- `UnpackIfNotUnpacked`: unpack only when the target is not yet
unpacked. -/
def UnpackIfNotUnpacked (loc : Locator) (targetDir : String) (w : FSWorld) :
    FSWorld × Except Err Unit :=
  match IsUnpacked w targetDir with
  | .error e => (w, .error e)
  | .ok true => (w, .ok ())
  | .ok false => Unpack loc targetDir w

/-! ## Phase executor dispatch (`src/lib/update/executor.go`) -/

/-- A phase of an orchestration plan (`fsm.Phase`, the fields the dispatch
reads). -/
structure Phase where
  ID : String
  Executor : String
deriving DecidableEq

/-- An orchestration plan (`fsm.Plan`, the field the dispatch reads). -/
structure Plan where
  OperationType : String
deriving DecidableEq

/-- `fsm.ExecutorParams`: the plan and the phase to dispatch. -/
structure ExecutorParams where
  Phase : Phase
  Plan : Plan
deriving DecidableEq

/-- Modelled from the spec: `ops.OperationUpdate`, the operation type this
dispatch table serves. -/
def OperationUpdate : String := "operation_update"

/-- An executor instance; its behavior is irrelevant to dispatch. -/
structure PhaseExecutor where
  tag : Nat
deriving DecidableEq

/-- Executor name constants of the update dispatch table. -/
def updateInit : String := "update_init"

def updateChecks : String := "update_checks"

def updateBootstrap : String := "update_bootstrap"

def updateSystem : String := "update_system"

def preUpdate : String := "pre_update"

def coredns : String := "coredns"

def updateApp : String := "update_app"

def electionStatus : String := "election_status"

def taintNode : String := "taint_node"

def untaintNode : String := "untaint_node"

def drainNode : String := "drain_node"

def uncordonNode : String := "uncordon_node"

def endpoints : String := "endpoints"

def phaseConfig : String := "config"

def kubeletPermissions : String := "kubelet_permissions"

def migrateLinks : String := "links"

def updateLabels : String := "labels"

def migrateRoles : String := "roles"

def updateEtcdBackup : String := "etcd_backup"

def updateEtcdShutdown : String := "etcd_shutdown"

def updateEtcdMaster : String := "etcd_upgrade"

def updateEtcdRestore : String := "etcd_restore"

def updateEtcdRestart : String := "etcd_restart"

def updateEtcdRestartGravity : String := "etcd_restart_gravity"

def cleanupNode : String := "cleanup_node"

/-- The closed executor-name vocabulary of the update dispatch table, in
switch order. -/
def executorVocabulary : List String :=
  [updateInit, updateChecks, updateBootstrap, coredns, updateSystem, preUpdate,
    updateApp, electionStatus, taintNode, untaintNode, drainNode, uncordonNode,
    endpoints, phaseConfig, kubeletPermissions, migrateLinks, updateLabels,
    migrateRoles, updateEtcdBackup, updateEtcdShutdown, updateEtcdMaster,
    updateEtcdRestore, updateEtcdRestart, updateEtcdRestartGravity, cleanupNode]

/-- Modelled from the spec: the `FSMConfig` the dispatch closes over, seen
through the executor constructors it makes available.  Each constructor
may itself fail, and dispatch must propagate that result unchanged; the
remote handle each Go constructor may receive is absorbed into the
field. -/
structure FSMConfig where
  NewUpdatePhaseInit : Plan → Phase → Except Err PhaseExecutor
  NewUpdatePhaseChecks : Plan → Phase → Except Err PhaseExecutor
  NewUpdatePhaseBootstrap : Plan → Phase → Except Err PhaseExecutor
  NewPhaseCoreDNS : Plan → Phase → Except Err PhaseExecutor
  NewUpdatePhaseSystem : Plan → Phase → Except Err PhaseExecutor
  NewUpdatePhaseBeforeApp : Plan → Phase → Except Err PhaseExecutor
  NewUpdatePhaseApp : Plan → Phase → Except Err PhaseExecutor
  NewPhaseElectionChange : Plan → Phase → Except Err PhaseExecutor
  NewPhaseTaint : Plan → Phase → Except Err PhaseExecutor
  NewPhaseUntaint : Plan → Phase → Except Err PhaseExecutor
  NewPhaseDrain : Plan → Phase → Except Err PhaseExecutor
  NewPhaseUncordon : Plan → Phase → Except Err PhaseExecutor
  NewPhaseEndpoints : Plan → Phase → Except Err PhaseExecutor
  NewUpdatePhaseConfig : Plan → Phase → Except Err PhaseExecutor
  NewPhaseKubeletPermissions : Plan → Phase → Except Err PhaseExecutor
  NewPhaseMigrateLinks : Plan → Phase → Except Err PhaseExecutor
  NewPhaseUpdateLabels : Plan → Phase → Except Err PhaseExecutor
  NewPhaseMigrateRoles : Plan → Phase → Except Err PhaseExecutor
  NewPhaseUpgradeEtcdBackup : Plan → Phase → Except Err PhaseExecutor
  NewPhaseUpgradeEtcdShutdown : Plan → Phase → Except Err PhaseExecutor
  NewPhaseUpgradeEtcd : Plan → Phase → Except Err PhaseExecutor
  NewPhaseUpgradeEtcdRestore : Plan → Phase → Except Err PhaseExecutor
  NewPhaseUpgradeEtcdRestart : Plan → Phase → Except Err PhaseExecutor
  NewPhaseUpgradeGravitySiteRestart : Plan → Phase → Except Err PhaseExecutor
  NewGarbageCollectPhase : Plan → Phase → Except Err PhaseExecutor

/-- The constructor the switch selects for a vocabulary name. -/
def ctorFor (c : FSMConfig) (p : ExecutorParams) (name : String) :
    Except Err PhaseExecutor :=
  if name = updateInit then c.NewUpdatePhaseInit p.Plan p.Phase
  else if name = updateChecks then c.NewUpdatePhaseChecks p.Plan p.Phase
  else if name = updateBootstrap then c.NewUpdatePhaseBootstrap p.Plan p.Phase
  else if name = coredns then c.NewPhaseCoreDNS p.Plan p.Phase
  else if name = updateSystem then c.NewUpdatePhaseSystem p.Plan p.Phase
  else if name = preUpdate then c.NewUpdatePhaseBeforeApp p.Plan p.Phase
  else if name = updateApp then c.NewUpdatePhaseApp p.Plan p.Phase
  else if name = electionStatus then c.NewPhaseElectionChange p.Plan p.Phase
  else if name = taintNode then c.NewPhaseTaint p.Plan p.Phase
  else if name = untaintNode then c.NewPhaseUntaint p.Plan p.Phase
  else if name = drainNode then c.NewPhaseDrain p.Plan p.Phase
  else if name = uncordonNode then c.NewPhaseUncordon p.Plan p.Phase
  else if name = endpoints then c.NewPhaseEndpoints p.Plan p.Phase
  else if name = phaseConfig then c.NewUpdatePhaseConfig p.Plan p.Phase
  else if name = kubeletPermissions then c.NewPhaseKubeletPermissions p.Plan p.Phase
  else if name = migrateLinks then c.NewPhaseMigrateLinks p.Plan p.Phase
  else if name = updateLabels then c.NewPhaseUpdateLabels p.Plan p.Phase
  else if name = migrateRoles then c.NewPhaseMigrateRoles p.Plan p.Phase
  else if name = updateEtcdBackup then c.NewPhaseUpgradeEtcdBackup p.Plan p.Phase
  else if name = updateEtcdShutdown then c.NewPhaseUpgradeEtcdShutdown p.Plan p.Phase
  else if name = updateEtcdMaster then c.NewPhaseUpgradeEtcd p.Plan p.Phase
  else if name = updateEtcdRestore then c.NewPhaseUpgradeEtcdRestore p.Plan p.Phase
  else if name = updateEtcdRestart then c.NewPhaseUpgradeEtcdRestart p.Plan p.Phase
  else if name = updateEtcdRestartGravity then
    c.NewPhaseUpgradeGravitySiteRestart p.Plan p.Phase
  else if name = cleanupNode then c.NewGarbageCollectPhase p.Plan p.Phase
  else .error (.badParameter (""))

/-- `fsmSpec`'s dispatch function: an empty executor is a plan-integrity
failure; a non-update plan is unsupported; then the executor name selects a
constructor from the closed vocabulary, with a version-skew error as the
default. -/
def fsmSpec (c : FSMConfig) (p : ExecutorParams) : Except Err PhaseExecutor :=
  if p.Phase.Executor = ("") then
    .error (.badParameter ("error in plan, executor for phase \"" ++
      p.Phase.ID ++ "\" was not specified"))
  else if p.Plan.OperationType ≠ OperationUpdate then
    .error (.badParameter ("unsupported operation \"" ++
      p.Plan.OperationType ++ "\""))
  else if p.Phase.Executor ∈ executorVocabulary then
    ctorFor c p p.Phase.Executor
  else
    .error (.badParameter ("phase \"" ++ p.Phase.ID ++ "\" requires executor \"" ++
      p.Phase.Executor ++ "\" (potential mismatch between upgrade versions)"))

/-! ## Concrete instances used by witnesses and counterexamples -/

/-- A config-extraction oracle that always succeeds. -/
def okConfig : Locator → List String → Except Err Unit := fun _ _ => .ok ()

/-- C6: two envelopes in one repository, both matching a constant
predicate; enumeration order is `c6e1` then `c6e2`. -/
def c6e1 : PackageEnvelope := ⟨⟨"r", "a", "1.0.0"⟩, []⟩

/-- C6: the second envelope of the enumeration. -/
def c6e2 : PackageEnvelope := ⟨⟨"r", "b", "2.0.0"⟩, []⟩

/-- C6: the store holding `c6e1` and `c6e2`. -/
def c6store : PackageService := ⟨[("r", [c6e1, c6e2])], okConfig⟩

/-- C3: a matching envelope whose version string does not parse, first in
enumeration order. -/
def c3bad : PackageEnvelope := ⟨⟨"r", "n", "bad"⟩, []⟩

/-- C3: a matching envelope with a parsable version, after `c3bad`. -/
def c3good : PackageEnvelope := ⟨⟨"r", "n", "1.0.0"⟩, []⟩

/-- C3: the store holding `c3bad` before `c3good`. -/
def c3store : PackageService := ⟨[("r", [c3bad, c3good])], okConfig⟩

/-- C3 witness: a first matching envelope that parses. -/
def c3wa : PackageEnvelope := ⟨⟨"r", "n", "1.0.0"⟩, []⟩

/-- C3 witness: a later, larger parsable envelope. -/
def c3wb : PackageEnvelope := ⟨⟨"r", "n", "2.0.0"⟩, []⟩

/-- C3 witness store. -/
def c3wstore : PackageService := ⟨[("r", [c3wa, c3wb])], okConfig⟩

/-- C2: envelope at version 1.0.0. -/
def c2ea : PackageEnvelope := ⟨⟨"r", "app", "1.0.0"⟩, []⟩

/-- C2: envelope at version 1.1.0. -/
def c2eb : PackageEnvelope := ⟨⟨"r", "app", "1.1.0"⟩, []⟩

/-- C2: envelope at version 2.0.0. -/
def c2ec : PackageEnvelope := ⟨⟨"r", "app", "2.0.0"⟩, []⟩

/-- C2: the three versions enumerate in scrambled order c, a, b. -/
def c2store : PackageService := ⟨[("r", [c2ec, c2ea, c2eb])], okConfig⟩

/-- C5: the installed version of the line. -/
def c5a : PackageEnvelope := ⟨⟨"r", "app", "1.0.0"⟩, []⟩

/-- C5: a later version of the line. -/
def c5b : PackageEnvelope := ⟨⟨"r", "app", "1.2.0"⟩, []⟩

/-- C5: the store holding both versions. -/
def c5store : PackageService := ⟨[("r", [c5a, c5b])], okConfig⟩

/-- C7: a name-matching envelope with a parsable version, first in
enumeration order. -/
def c7good : PackageEnvelope := ⟨⟨"r", "n", "1.5.0"⟩, []⟩

/-- C7: a name-matching envelope whose version does not parse. -/
def c7bad : PackageEnvelope := ⟨⟨"r", "n", "bad"⟩, []⟩

/-- C7: the store enumerating `c7good` before `c7bad`. -/
def c7store : PackageService := ⟨[("r", [c7good, c7bad])], okConfig⟩



/-- C4: a constructor table whose entries return distinct executors. -/
def c4cfg : FSMConfig :=
  FSMConfig.mk
    (fun _ _ => .ok ⟨1⟩)
    (fun _ _ => .ok ⟨2⟩)
    (fun _ _ => .ok ⟨3⟩)
    (fun _ _ => .ok ⟨4⟩)
    (fun _ _ => .ok ⟨5⟩)
    (fun _ _ => .ok ⟨6⟩)
    (fun _ _ => .ok ⟨7⟩)
    (fun _ _ => .ok ⟨8⟩)
    (fun _ _ => .ok ⟨9⟩)
    (fun _ _ => .ok ⟨10⟩)
    (fun _ _ => .ok ⟨11⟩)
    (fun _ _ => .ok ⟨12⟩)
    (fun _ _ => .ok ⟨13⟩)
    (fun _ _ => .ok ⟨14⟩)
    (fun _ _ => .ok ⟨15⟩)
    (fun _ _ => .ok ⟨16⟩)
    (fun _ _ => .ok ⟨17⟩)
    (fun _ _ => .ok ⟨18⟩)
    (fun _ _ => .ok ⟨19⟩)
    (fun _ _ => .ok ⟨20⟩)
    (fun _ _ => .ok ⟨21⟩)
    (fun _ _ => .ok ⟨22⟩)
    (fun _ _ => .ok ⟨23⟩)
    (fun _ _ => .ok ⟨24⟩)
    (fun _ _ => .ok ⟨25⟩)

/-- C4: dispatch parameters selecting the update-init executor of an
update-operation plan. -/
def c4params : ExecutorParams := ⟨⟨"phase-1", "update_init"⟩, ⟨"operation_update"⟩⟩


/-- C9: the package being unpacked. -/
def c9loc : Locator := ⟨"r", "app", "1.0.0"⟩

/-- C9: a world in which the target directory already exists. -/
def c9world : FSWorld := ⟨[("/t", true)], .ok ("/s"), fun _ => .ok (), .ok (), 0⟩

/-- C9 witness: a fresh world with all I/O succeeding. -/
def c9fresh : FSWorld := ⟨[], .ok ("/s"), fun _ => .ok (), .ok (), 0⟩

/-- C10: an empty store with a succeeding config oracle. -/
def c10store : PackageService := ⟨[], okConfig⟩

/-- Flattens an association store into its envelope sequence. -/
def flattenSnd : List (String × List PackageEnvelope) → List PackageEnvelope
  | [] => []
  | rp :: rest => rp.2 ++ flattenSnd rest


/-- C8: the package line owning the configuration. -/
def c8loc : Locator := ⟨"r", "app", "1.0.0"⟩

/-- C8: the configuration package's identity. -/
def c8conf : Locator := ⟨"r", "app-config", "1.0.0"⟩

/-- C8: an initially empty store. -/
def c8store : PackageService := ⟨[], okConfig⟩

theorem ordThenSwap (o p : Ordering) : (o.then p).swap = o.swap.then p.swap := by
  cases o <;> rfl

theorem then_lt_iff (o p : Ordering) : o.then p = .lt ↔ o = .lt ∨ (o = .eq ∧ p = .lt) := by
  cases o <;> simp [Ordering.then]

theorem then_eq_iff (o p : Ordering) : o.then p = .eq ↔ o = .eq ∧ p = .eq := by
  cases o <;> simp [Ordering.then]

theorem CmpLaws.refl {α : Type} {c : α → α → Ordering} (h : CmpLaws c) (a : α) :
    c a a = .eq := by
  have hs := h.symm a a
  cases hv : c a a with
  | lt => rw [hv] at hs; exact absurd hs (by decide)
  | eq => rfl
  | gt => rw [hv] at hs; exact absurd hs (by decide)

theorem CmpLaws.gt_iff {α : Type} {c : α → α → Ordering} (h : CmpLaws c) (a b : α) :
    c a b = .gt ↔ c b a = .lt := by
  have hs := h.symm a b
  constructor
  · intro hx
    rw [hx] at hs
    cases hv : c b a with
    | lt => rfl
    | eq => rw [hv] at hs; exact absurd hs (by decide)
    | gt => rw [hv] at hs; exact absurd hs (by decide)
  · intro hx
    rw [hx] at hs
    exact hs

theorem CmpLaws.lt_of_le_of_lt {α : Type} {c : α → α → Ordering} (h : CmpLaws c)
    {a b d : α} (hab : c a b ≠ .gt) (hbd : c b d = .lt) : c a d = .lt := by
  cases hv : c a b with
  | lt => exact h.lt_trans _ _ _ hv hbd
  | eq => exact h.eq_lt _ _ _ hv hbd
  | gt => exact absurd hv hab

theorem CmpLaws.le_trans {α : Type} {c : α → α → Ordering} (h : CmpLaws c)
    {a b d : α} (hab : c a b ≠ .gt) (hbd : c b d ≠ .gt) : c a d ≠ .gt := by
  cases hv : c b d with
  | lt => rw [h.lt_of_le_of_lt hab hv]; decide
  | eq =>
    cases hw : c a b with
    | lt => rw [h.lt_eq _ _ _ hw hv]; decide
    | eq => rw [h.eq_trans _ _ _ hw hv]; decide
    | gt => exact absurd hw hab
  | gt => exact absurd hv hbd

theorem ltCmp_lt {α : Type} [LinearOrder α] {a b : α} (h : a < b) : ltCmp a b = .lt := by
  unfold ltCmp; rw [if_pos h]

theorem ltCmp_gt {α : Type} [LinearOrder α] {a b : α} (h : b < a) : ltCmp a b = .gt := by
  unfold ltCmp; rw [if_neg (lt_asymm h), if_pos h]

theorem ltCmp_eq {α : Type} [LinearOrder α] {a b : α} (h : a = b) : ltCmp a b = .eq := by
  subst h; unfold ltCmp; rw [if_neg (lt_irrefl a), if_neg (lt_irrefl a)]

theorem lt_of_ltCmp {α : Type} [LinearOrder α] {a b : α} (h : ltCmp a b = .lt) : a < b := by
  rcases lt_trichotomy a b with hv | hv | hv
  · exact hv
  · rw [ltCmp_eq hv] at h; exact absurd h (by decide)
  · rw [ltCmp_gt hv] at h; exact absurd h (by decide)

theorem eq_of_ltCmp {α : Type} [LinearOrder α] {a b : α} (h : ltCmp a b = .eq) : a = b := by
  rcases lt_trichotomy a b with hv | hv | hv
  · rw [ltCmp_lt hv] at h; exact absurd h (by decide)
  · exact hv
  · rw [ltCmp_gt hv] at h; exact absurd h (by decide)

theorem ltCmp_laws {α : Type} [LinearOrder α] : CmpLaws (ltCmp (α := α)) := by
  constructor
  · intro a b
    rcases lt_trichotomy a b with hv | hv | hv
    · rw [ltCmp_lt hv, ltCmp_gt hv]; rfl
    · rw [ltCmp_eq hv, ltCmp_eq hv.symm]; rfl
    · rw [ltCmp_gt hv, ltCmp_lt hv]; rfl
  · intro a b d h1 h2
    exact ltCmp_lt (lt_trans (lt_of_ltCmp h1) (lt_of_ltCmp h2))
  · intro a b d h1 h2
    rw [eq_of_ltCmp h1]; exact h2
  · intro a b d h1 h2
    rw [← eq_of_ltCmp h2]; exact h1
  · intro a b d h1 h2
    rw [eq_of_ltCmp h1]; exact h2

theorem lexCmp_cons {α : Type} (c : α → α → Ordering) (x y : α) (xs ys : List α) :
    lexCmp c (x :: xs) (y :: ys) = (c x y).then (lexCmp c xs ys) := rfl

theorem pullbackCmpLaws {α β : Type} {c : β → β → Ordering} (f : α → β) (hc : CmpLaws c) :
    CmpLaws (fun a b => c (f a) (f b)) := by
  refine ⟨fun a b => hc.symm _ _, fun a b d => hc.lt_trans _ _ _,
    fun a b d => hc.eq_lt _ _ _, fun a b d => hc.lt_eq _ _ _,
    fun a b d => hc.eq_trans _ _ _⟩

theorem thenCmpLaws {α : Type} {c d : α → α → Ordering} (hc : CmpLaws c) (hd : CmpLaws d) :
    CmpLaws (fun a b => (c a b).then (d a b)) := by
  constructor
  · intro a b
    rw [hc.symm, hd.symm, ordThenSwap]
  · intro a b e h1 h2
    rw [then_lt_iff] at h1 h2 ⊢
    rcases h1 with h1 | ⟨h1e, h1l⟩ <;> rcases h2 with h2 | ⟨h2e, h2l⟩
    · exact Or.inl (hc.lt_trans _ _ _ h1 h2)
    · exact Or.inl (hc.lt_eq _ _ _ h1 h2e)
    · exact Or.inl (hc.eq_lt _ _ _ h1e h2)
    · exact Or.inr ⟨hc.eq_trans _ _ _ h1e h2e, hd.lt_trans _ _ _ h1l h2l⟩
  · intro a b e h1 h2
    rw [then_eq_iff] at h1
    rw [then_lt_iff] at h2 ⊢
    rcases h2 with h2 | ⟨h2e, h2l⟩
    · exact Or.inl (hc.eq_lt _ _ _ h1.1 h2)
    · exact Or.inr ⟨hc.eq_trans _ _ _ h1.1 h2e, hd.eq_lt _ _ _ h1.2 h2l⟩
  · intro a b e h1 h2
    rw [then_eq_iff] at h2
    rw [then_lt_iff] at h1 ⊢
    rcases h1 with h1 | ⟨h1e, h1l⟩
    · exact Or.inl (hc.lt_eq _ _ _ h1 h2.1)
    · exact Or.inr ⟨hc.eq_trans _ _ _ h1e h2.1, hd.lt_eq _ _ _ h1l h2.2⟩
  · intro a b e h1 h2
    rw [then_eq_iff] at h1 h2 ⊢
    exact ⟨hc.eq_trans _ _ _ h1.1 h2.1, hd.eq_trans _ _ _ h1.2 h2.2⟩

theorem lexCmpLaws {α : Type} {c : α → α → Ordering} (hc : CmpLaws c) : CmpLaws (lexCmp c) := by
  constructor
  · intro a
    induction a with
    | nil => intro b; cases b <;> rfl
    | cons x xs ih =>
      intro b
      cases b with
      | nil => rfl
      | cons y ys =>
        rw [lexCmp_cons, lexCmp_cons, ordThenSwap, ← hc.symm, ← ih]
  · intro a
    induction a with
    | nil =>
      intro b d h1 h2
      cases b with
      | nil => exact nomatch h1
      | cons y ys =>
        cases d with
        | nil => exact nomatch h2
        | cons z zs => rfl
    | cons x xs ih =>
      intro b d h1 h2
      cases b with
      | nil => exact nomatch h1
      | cons y ys =>
        cases d with
        | nil => exact nomatch h2
        | cons z zs =>
          rw [lexCmp_cons, then_lt_iff] at h1 h2 ⊢
          rcases h1 with h1 | ⟨h1e, h1l⟩ <;> rcases h2 with h2 | ⟨h2e, h2l⟩
          · exact Or.inl (hc.lt_trans _ _ _ h1 h2)
          · exact Or.inl (hc.lt_eq _ _ _ h1 h2e)
          · exact Or.inl (hc.eq_lt _ _ _ h1e h2)
          · exact Or.inr ⟨hc.eq_trans _ _ _ h1e h2e, ih _ _ h1l h2l⟩
  · intro a
    induction a with
    | nil =>
      intro b d h1 h2
      cases b with
      | nil =>
        cases d with
        | nil => exact nomatch h2
        | cons z zs => rfl
      | cons y ys => exact nomatch h1
    | cons x xs ih =>
      intro b d h1 h2
      cases b with
      | nil => exact nomatch h1
      | cons y ys =>
        cases d with
        | nil => exact nomatch h2
        | cons z zs =>
          rw [lexCmp_cons, then_eq_iff] at h1
          rw [lexCmp_cons, then_lt_iff] at h2 ⊢
          rcases h2 with h2 | ⟨h2e, h2l⟩
          · exact Or.inl (hc.eq_lt _ _ _ h1.1 h2)
          · exact Or.inr ⟨hc.eq_trans _ _ _ h1.1 h2e, ih _ _ h1.2 h2l⟩
  · intro a
    induction a with
    | nil =>
      intro b d h1 h2
      cases b with
      | nil =>
        cases d with
        | nil => exact nomatch h1
        | cons z zs => exact nomatch h2
      | cons y ys =>
        cases d with
        | nil => exact nomatch h2
        | cons z zs => rfl
    | cons x xs ih =>
      intro b d h1 h2
      cases b with
      | nil => exact nomatch h1
      | cons y ys =>
        cases d with
        | nil => exact nomatch h2
        | cons z zs =>
          rw [lexCmp_cons, then_eq_iff] at h2
          rw [lexCmp_cons, then_lt_iff] at h1 ⊢
          rcases h1 with h1 | ⟨h1e, h1l⟩
          · exact Or.inl (hc.lt_eq _ _ _ h1 h2.1)
          · exact Or.inr ⟨hc.eq_trans _ _ _ h1e h2.1, ih _ _ h1l h2.2⟩
  · intro a
    induction a with
    | nil =>
      intro b d h1 h2
      cases b with
      | nil =>
        cases d with
        | nil => rfl
        | cons z zs => exact nomatch h2
      | cons y ys => exact nomatch h1
    | cons x xs ih =>
      intro b d h1 h2
      cases b with
      | nil => exact nomatch h1
      | cons y ys =>
        cases d with
        | nil => exact nomatch h2
        | cons z zs =>
          rw [lexCmp_cons, then_eq_iff] at h1 h2 ⊢
          exact ⟨hc.eq_trans _ _ _ h1.1 h2.1, ih _ _ h1.2 h2.2⟩

theorem partCmpLaws : CmpLaws partCmp := by
  have hint : CmpLaws (ltCmp (α := Int)) := ltCmp_laws
  have hlex : CmpLaws (lexCmp (ltCmp (α := Char))) := lexCmpLaws ltCmp_laws
  constructor
  · intro a b
    unfold partCmp
    cases hpa : parseGoInt a <;> cases hpb : parseGoInt b
    · exact hlex.symm a b
    · rfl
    · rfl
    · exact hint.symm _ _
  · intro a b d h1 h2
    unfold partCmp at h1 h2 ⊢
    cases hpa : parseGoInt a <;> cases hpb : parseGoInt b <;> cases hpd : parseGoInt d
    · rw [hpa, hpb] at h1; rw [hpb, hpd] at h2; exact hlex.lt_trans _ _ _ h1 h2
    · rw [hpb, hpd] at h2; exact nomatch h2
    · rw [hpa, hpb] at h1; exact nomatch h1
    · rw [hpa, hpb] at h1; exact nomatch h1
    · rfl
    · rw [hpb, hpd] at h2; exact nomatch h2
    · rfl
    · rw [hpa, hpb] at h1; rw [hpb, hpd] at h2; exact hint.lt_trans _ _ _ h1 h2
  · intro a b d h1 h2
    unfold partCmp at h1 h2 ⊢
    cases hpa : parseGoInt a <;> cases hpb : parseGoInt b <;> cases hpd : parseGoInt d
    · rw [hpa, hpb] at h1; rw [hpb, hpd] at h2; exact hlex.eq_lt _ _ _ h1 h2
    · rw [hpb, hpd] at h2; exact nomatch h2
    · rw [hpa, hpb] at h1; exact nomatch h1
    · rw [hpa, hpb] at h1; exact nomatch h1
    · rw [hpa, hpb] at h1
    · rw [hpa, hpb] at h1; exact nomatch h1
    · rfl
    · rw [hpa, hpb] at h1; rw [hpb, hpd] at h2; exact hint.eq_lt _ _ _ h1 h2
  · intro a b d h1 h2
    unfold partCmp at h1 h2 ⊢
    cases hpa : parseGoInt a <;> cases hpb : parseGoInt b <;> cases hpd : parseGoInt d
    · rw [hpa, hpb] at h1; rw [hpb, hpd] at h2; exact hlex.lt_eq _ _ _ h1 h2
    · rw [hpb, hpd] at h2; exact nomatch h2
    · rw [hpb, hpd] at h2; exact nomatch h2
    · rw [hpa, hpb] at h1; exact nomatch h1
    · rfl
    · rw [hpb, hpd] at h2; exact nomatch h2
    · rw [hpb, hpd] at h2
    · rw [hpa, hpb] at h1; rw [hpb, hpd] at h2; exact hint.lt_eq _ _ _ h1 h2
  · intro a b d h1 h2
    unfold partCmp at h1 h2 ⊢
    cases hpa : parseGoInt a <;> cases hpb : parseGoInt b <;> cases hpd : parseGoInt d
    · rw [hpa, hpb] at h1; rw [hpb, hpd] at h2; exact hlex.eq_trans _ _ _ h1 h2
    · rw [hpb, hpd] at h2; exact nomatch h2
    · rw [hpa, hpb] at h1; exact nomatch h1
    · rw [hpa, hpb] at h1; exact nomatch h1
    · rw [hpa, hpb] at h1; exact nomatch h1
    · rw [hpa, hpb] at h1; exact nomatch h1
    · rw [hpb, hpd] at h2; exact nomatch h2
    · rw [hpa, hpb] at h1; rw [hpb, hpd] at h2; exact hint.eq_trans _ _ _ h1 h2

theorem preCmp_both_empty : preCmp ("") ("") = .eq := by
  unfold preCmp; rw [if_pos rfl, if_pos rfl]

theorem preCmp_left_empty {b : String} (hb : b ≠ ("")) : preCmp ("") b = .gt := by
  unfold preCmp; rw [if_pos rfl, if_neg hb]

theorem preCmp_right_empty {a : String} (ha : a ≠ ("")) : preCmp a ("") = .lt := by
  unfold preCmp; rw [if_neg ha, if_pos rfl]

theorem preCmp_eq_lex {a b : String} (ha : a ≠ ("")) (hb : b ≠ ("")) :
    preCmp a b = lexCmp partCmp (splitDots a.data) (splitDots b.data) := by
  unfold preCmp; rw [if_neg ha, if_neg hb]

theorem preCmpLaws : CmpLaws preCmp := by
  have hlex : CmpLaws (lexCmp partCmp) := lexCmpLaws partCmpLaws
  constructor
  · intro a b
    by_cases ha : a = ("") <;> by_cases hb : b = ("")
    · subst ha; subst hb; rw [preCmp_both_empty]; rfl
    · subst ha; rw [preCmp_left_empty hb, preCmp_right_empty hb]; rfl
    · subst hb; rw [preCmp_right_empty ha, preCmp_left_empty ha]; rfl
    · rw [preCmp_eq_lex ha hb, preCmp_eq_lex hb ha]; exact hlex.symm _ _
  · intro a b d h1 h2
    by_cases hb : b = ("")
    · subst hb
      by_cases hd : d = ("")
      · subst hd; rw [preCmp_both_empty] at h2; exact nomatch h2
      · rw [preCmp_left_empty hd] at h2; exact nomatch h2
    · by_cases ha : a = ("")
      · subst ha; rw [preCmp_left_empty hb] at h1; exact nomatch h1
      · by_cases hd : d = ("")
        · subst hd; exact preCmp_right_empty ha
        · rw [preCmp_eq_lex ha hb] at h1
          rw [preCmp_eq_lex hb hd] at h2
          rw [preCmp_eq_lex ha hd]
          exact hlex.lt_trans _ _ _ h1 h2
  · intro a b d h1 h2
    by_cases ha : a = ("")
    · subst ha
      by_cases hb : b = ("")
      · subst hb; exact h2
      · rw [preCmp_left_empty hb] at h1; exact nomatch h1
    · by_cases hb : b = ("")
      · subst hb; rw [preCmp_right_empty ha] at h1; exact nomatch h1
      · by_cases hd : d = ("")
        · subst hd; exact preCmp_right_empty ha
        · rw [preCmp_eq_lex ha hb] at h1
          rw [preCmp_eq_lex hb hd] at h2
          rw [preCmp_eq_lex ha hd]
          exact hlex.eq_lt _ _ _ h1 h2
  · intro a b d h1 h2
    by_cases hb : b = ("")
    · subst hb
      by_cases hd : d = ("")
      · subst hd; exact h1
      · rw [preCmp_left_empty hd] at h2; exact nomatch h2
    · by_cases ha : a = ("")
      · subst ha; rw [preCmp_left_empty hb] at h1; exact nomatch h1
      · by_cases hd : d = ("")
        · subst hd; rw [preCmp_right_empty hb] at h2; exact nomatch h2
        · rw [preCmp_eq_lex ha hb] at h1
          rw [preCmp_eq_lex hb hd] at h2
          rw [preCmp_eq_lex ha hd]
          exact hlex.lt_eq _ _ _ h1 h2
  · intro a b d h1 h2
    by_cases ha : a = ("")
    · subst ha
      by_cases hb : b = ("")
      · subst hb; exact h2
      · rw [preCmp_left_empty hb] at h1; exact nomatch h1
    · by_cases hb : b = ("")
      · subst hb; rw [preCmp_right_empty ha] at h1; exact nomatch h1
      · by_cases hd : d = ("")
        · subst hd; rw [preCmp_right_empty hb] at h2; exact nomatch h2
        · rw [preCmp_eq_lex ha hb] at h1
          rw [preCmp_eq_lex hb hd] at h2
          rw [preCmp_eq_lex ha hd]
          exact hlex.eq_trans _ _ _ h1 h2

theorem semverCompareLaws : CmpLaws semverCompare :=
  thenCmpLaws (pullbackCmpLaws SemVer.major ltCmp_laws)
    (thenCmpLaws (pullbackCmpLaws SemVer.minor ltCmp_laws)
      (thenCmpLaws (pullbackCmpLaws SemVer.patch ltCmp_laws)
        (pullbackCmpLaws SemVer.preRelease preCmpLaws)))

/-! ## Iteration bridges

With a pure (never failing) callback, the `Foreach` combinators are plain
left folds over the store enumeration. -/

theorem foldE_cons {σ α : Type} (f : σ → α → Except Err σ) (s : σ) (a : α) (l : List α) :
    foldE f s (a :: l) =
      match f s a with
      | .error e => .error e
      | .ok s' => foldE f s' l := rfl

theorem foldE_ok {σ α : Type} (g : σ → α → σ) :
    ∀ (l : List α) (s : σ),
      foldE (fun s a => Except.ok (g s a)) s l = .ok (List.foldl g s l) := by
  intro l
  induction l with
  | nil => intro s; rfl
  | cons a l ih => intro s; exact ih (g s a)

theorem foreachInRepo_pure {σ : Type} (p : PackageService) (repo : String)
    (g : σ → PackageEnvelope → σ) (s : σ) :
    ForeachPackageInRepo p repo (fun e s => Except.ok (g s e)) s =
      .ok (List.foldl g s (GetPackages p repo)) := by
  simp only [ForeachPackageInRepo]
  exact foldE_ok g _ s

theorem foreachPackage_pure {σ : Type} (p : PackageService)
    (g : σ → PackageEnvelope → σ) :
    ∀ (rs : List String) (s : σ),
      foldE (fun s r => ForeachPackageInRepo p r (fun e s => Except.ok (g s e)) s) s rs =
        .ok (List.foldl g s (enumRepos p rs)) := by
  intro rs
  induction rs with
  | nil => intro s; rfl
  | cons r rs ih =>
    intro s
    rw [foldE_cons, foreachInRepo_pure p r g s]
    show foldE (fun s r => ForeachPackageInRepo p r (fun e s => Except.ok (g s e)) s)
        (List.foldl g s (GetPackages p r)) rs =
      Except.ok (List.foldl g s (enumRepos p (r :: rs)))
    rw [ih (List.foldl g s (GetPackages p r))]
    rw [show enumRepos p (r :: rs) = GetPackages p r ++ enumRepos p rs from rfl]
    rw [List.foldl_append]

theorem foreachPackage_pure' {σ : Type} (p : PackageService)
    (g : σ → PackageEnvelope → σ) (s : σ) :
    ForeachPackage p (fun e s => Except.ok (g s e)) s =
      .ok (List.foldl g s (enumRepos p (GetRepositories p))) :=
  foreachPackage_pure p g (GetRepositories p) s

/-- The `FindPackage` accumulator keeps the last matching element. -/
theorem foldl_choice {α : Type} (fn : α → Bool) :
    ∀ (l : List α) (s : Option α),
      List.foldl (fun s e => if fn e then some e else s) s l =
        match (l.filter fn).getLast? with
        | some e => some e
        | none => s := by
  intro l
  induction l with
  | nil => intro s; rfl
  | cons a l ih =>
    intro s
    rw [List.foldl_cons, ih]
    by_cases ha : fn a
    · rw [if_pos ha, List.filter_cons_of_pos ha]
      cases ht : (l.filter fn).getLast? with
      | none =>
        have : l.filter fn = [] := by
          cases hl : l.filter fn with
          | nil => rfl
          | cons x xs => rw [hl] at ht; simp [List.getLast?_concat] at ht
        rw [this]
        rfl
      | some x =>
        cases hl : l.filter fn with
        | nil => rw [hl] at ht; exact absurd ht (by simp)
        | cons y ys =>
          rw [hl] at ht
          rw [List.getLast?_cons_cons, ht]
    · rw [if_neg ha, List.filter_cons_of_neg ha]

theorem CmpLaws.lt_of_lt_of_le {α : Type} {c : α → α → Ordering} (h : CmpLaws c)
    {a b d : α} (hab : c a b = .lt) (hbd : c b d ≠ .gt) : c a d = .lt := by
  cases hv : c b d with
  | lt => exact h.lt_trans _ _ _ hab hv
  | eq => exact h.lt_eq _ _ _ hab hv
  | gt => exact absurd hv hbd

theorem latestStep_skip {f : PackageEnvelope → Bool} {e : PackageEnvelope}
    (h : f e = false) (max : Option Locator) : latestStep f max e = max := by
  unfold latestStep; rw [if_pos h]

theorem latestStep_first {f : PackageEnvelope → Bool} {e : PackageEnvelope}
    (h : f e = true) : latestStep f none e = some e.Locator := by
  simp [latestStep, h]

theorem latestStep_noparse_m {f : PackageEnvelope → Bool} {e : PackageEnvelope}
    {m : Locator} (hf : f e = true) (hm : SemVer.parse m.Version = none) :
    latestStep f (some m) e = some m := by
  simp [latestStep, hf, hm]

theorem latestStep_noparse_e {f : PackageEnvelope → Bool} {e : PackageEnvelope}
    {m : Locator} {vm : SemVer} (hf : f e = true)
    (hm : SemVer.parse m.Version = some vm)
    (he : SemVer.parse e.Locator.Version = none) :
    latestStep f (some m) e = some m := by
  simp [latestStep, hf, hm, he]

theorem latestStep_cmp {f : PackageEnvelope → Bool} {e : PackageEnvelope}
    {m : Locator} {vm ve : SemVer} (hf : f e = true)
    (hm : SemVer.parse m.Version = some vm)
    (he : SemVer.parse e.Locator.Version = some ve) :
    latestStep f (some m) e =
      if semverCompare ve vm = .gt then some e.Locator else some m := by
  simp [latestStep, hf, hm, he]

/-- Invariant of the running-maximum fold started at a parsable maximum:
the fold ends at a parsable locator that is at least the start, came from
the start or a matching envelope, and dominates every parsable matching
envelope of the list. -/
theorem latestFold_some (f : PackageEnvelope → Bool) :
    ∀ (l : List PackageEnvelope) (m : Locator) (vm : SemVer),
      SemVer.parse m.Version = some vm →
      ∃ m' vm',
        List.foldl (latestStep f) (some m) l = some m' ∧
        SemVer.parse m'.Version = some vm' ∧
        (m' = m ∨ ∃ e, e ∈ l ∧ f e = true ∧ m' = e.Locator) ∧
        semverCompare vm vm' ≠ .gt ∧
        ∀ e ∈ l, f e = true → ∀ ve, SemVer.parse e.Locator.Version = some ve →
          semverCompare ve vm' ≠ .gt := by
  intro l
  induction l with
  | nil =>
    intro m vm hm
    refine ⟨m, vm, rfl, hm, Or.inl rfl, ?_, ?_⟩
    · rw [semverCompareLaws.refl vm]; decide
    · intro e he; exact absurd he (List.not_mem_nil e)
  | cons a l ih =>
    intro m vm hm
    by_cases hfa : f a = true
    · cases hpa : SemVer.parse a.Locator.Version with
      | none =>
        rw [List.foldl_cons, latestStep_noparse_e hfa hm hpa]
        obtain ⟨m', vm', hfold, hpm', horig, hle, hmax⟩ := ih m vm hm
        refine ⟨m', vm', hfold, hpm', ?_, hle, ?_⟩
        · rcases horig with h | ⟨e, hel, hfe, hml⟩
          · exact Or.inl h
          · exact Or.inr ⟨e, List.mem_cons_of_mem a hel, hfe, hml⟩
        · intro e he hfe ve hve
          rcases List.mem_cons.mp he with rfl | hel
          · rw [hpa] at hve; exact nomatch hve
          · exact hmax e hel hfe ve hve
      | some va =>
        by_cases hgt : semverCompare va vm = .gt
        · rw [List.foldl_cons, latestStep_cmp hfa hm hpa, if_pos hgt]
          obtain ⟨m', vm', hfold, hpm', horig, hle, hmax⟩ := ih a.Locator va hpa
          refine ⟨m', vm', hfold, hpm', ?_, ?_, ?_⟩
          · rcases horig with h | ⟨e, hel, hfe, hml⟩
            · exact Or.inr ⟨a, List.mem_cons_self a l, hfa, h⟩
            · exact Or.inr ⟨e, List.mem_cons_of_mem a hel, hfe, hml⟩
          · have hlt : semverCompare vm va = .lt := (semverCompareLaws.gt_iff va vm).mp hgt
            rw [semverCompareLaws.lt_of_lt_of_le hlt hle]; decide
          · intro e he hfe ve hve
            rcases List.mem_cons.mp he with rfl | hel
            · rw [hpa] at hve
              rw [← Option.some.inj hve]
              exact hle
            · exact hmax e hel hfe ve hve
        · rw [List.foldl_cons, latestStep_cmp hfa hm hpa, if_neg hgt]
          obtain ⟨m', vm', hfold, hpm', horig, hle, hmax⟩ := ih m vm hm
          refine ⟨m', vm', hfold, hpm', ?_, hle, ?_⟩
          · rcases horig with h | ⟨e, hel, hfe, hml⟩
            · exact Or.inl h
            · exact Or.inr ⟨e, List.mem_cons_of_mem a hel, hfe, hml⟩
          · intro e he hfe ve hve
            rcases List.mem_cons.mp he with rfl | hel
            · rw [hpa] at hve
              rw [← Option.some.inj hve]
              exact semverCompareLaws.le_trans hgt hle
            · exact hmax e hel hfe ve hve
    · have hfa' : f a = false := by
        cases hfb : f a
        · rfl
        · exact absurd hfb hfa
      rw [List.foldl_cons, latestStep_skip hfa' _]
      obtain ⟨m', vm', hfold, hpm', horig, hle, hmax⟩ := ih m vm hm
      refine ⟨m', vm', hfold, hpm', ?_, hle, ?_⟩
      · rcases horig with h | ⟨e, hel, hfe, hml⟩
        · exact Or.inl h
        · exact Or.inr ⟨e, List.mem_cons_of_mem a hel, hfe, hml⟩
      · intro e he hfe ve hve
        rcases List.mem_cons.mp he with rfl | hel
        · rw [hfe] at hfa'; exact nomatch hfa'
        · exact hmax e hel hfe ve hve

/-- When the first matching envelope of the scan parses, the fold yields a
matching envelope with a parsable version that dominates every parsable
matching envelope. -/
theorem latestFold_first (f : PackageEnvelope → Bool) :
    ∀ (l : List PackageEnvelope) (e0 : PackageEnvelope) (v0 : SemVer),
      l.find? f = some e0 → SemVer.parse e0.Locator.Version = some v0 →
      ∃ e ve,
        List.foldl (latestStep f) none l = some e.Locator ∧
        e ∈ l ∧ f e = true ∧ SemVer.parse e.Locator.Version = some ve ∧
        ∀ e' ∈ l, f e' = true → ∀ ve', SemVer.parse e'.Locator.Version = some ve' →
          semverCompare ve' ve ≠ .gt := by
  intro l
  induction l with
  | nil => intro e0 v0 h _; exact nomatch h
  | cons a l ih =>
    intro e0 v0 hfind hp0
    by_cases hfa : f a = true
    · rw [List.find?_cons_of_pos _ hfa] at hfind
      have he0 : a = e0 := Option.some.inj hfind
      subst he0
      rw [List.foldl_cons, latestStep_first hfa]
      obtain ⟨m', vm', hfold, hpm', horig, hle, hmax⟩ := latestFold_some f l a.Locator v0 hp0
      rcases horig with hm' | ⟨e, hel, hfe, hml⟩
      · refine ⟨a, vm', ?_, List.mem_cons_self a l, hfa, ?_, ?_⟩
        · rw [hfold, hm']
        · rw [hm'] at hpm'; exact hpm'
        · intro e' he' hfe' ve' hve'
          rcases List.mem_cons.mp he' with rfl | hel'
          · rw [hp0] at hve'
            rw [← Option.some.inj hve']
            exact hle
          · exact hmax e' hel' hfe' ve' hve'
      · refine ⟨e, vm', ?_, List.mem_cons_of_mem a hel, hfe, ?_, ?_⟩
        · rw [hfold, hml]
        · rw [hml] at hpm'; exact hpm'
        · intro e' he' hfe' ve' hve'
          rcases List.mem_cons.mp he' with rfl | hel'
          · rw [hp0] at hve'
            rw [← Option.some.inj hve']
            exact hle
          · exact hmax e' hel' hfe' ve' hve'
    · have hfa' : f a = false := by
        cases hfb : f a
        · rfl
        · exact absurd hfb hfa
      rw [List.find?_cons_of_neg _ hfa] at hfind
      rw [List.foldl_cons, latestStep_skip hfa' _]
      obtain ⟨e, ve, hfold, hel, hfe, hpe, hmax⟩ := ih e0 v0 hfind hp0
      refine ⟨e, ve, hfold, List.mem_cons_of_mem a hel, hfe, hpe, ?_⟩
      intro e' he' hfe' ve' hve'
      rcases List.mem_cons.mp he' with rfl | hel'
      · rw [hfe'] at hfa'; exact nomatch hfa'
      · exact hmax e' hel' hfe' ve' hve'

/-- `FindPackage` returns the last matching envelope of the enumeration (the
callback overwrites the candidate on every match), or not-found. -/
theorem findPackage_eq_lastMatch (p : PackageService) (fn : PackageEnvelope → Bool) :
    FindPackage p fn =
      match ((enumRepos p (GetRepositories p)).filter fn).getLast? with
      | none => .error (.notFound ("package not found"))
      | some e => .ok e := by
  unfold FindPackage
  rw [foreachPackage_pure' p (fun s e => if fn e then some e else s) none]
  rw [foldl_choice fn (enumRepos p (GetRepositories p)) none]
  cases ((enumRepos p (GetRepositories p)).filter fn).getLast? <;> rfl

/-- `FindLatestPackagePredicate` is the `latestStep` fold over the scanned
enumeration. -/
theorem findLatest_eq_fold (p : PackageService) (repository : String)
    (f : PackageEnvelope → Bool) :
    FindLatestPackagePredicate p repository f =
      match List.foldl (latestStep f) none (enumEnvs p repository) with
      | none => .error (.notFound ("latest package not found"))
      | some m => .ok m := by
  unfold FindLatestPackagePredicate enumEnvs
  by_cases hr : repository = ("")
  · rw [if_neg (fun hne => hne hr), if_pos hr]
    rw [foreachPackage_pure' p (latestStep f) none]
    cases List.foldl (latestStep f) none (enumRepos p (GetRepositories p)) <;> rfl
  · rw [if_pos hr, if_neg hr]
    rw [foreachInRepo_pure p repository (latestStep f) none]
    cases List.foldl (latestStep f) none (GetPackages p repository) <;> rfl

theorem find?_eq_head_filter {α : Type} (f : α → Bool) :
    ∀ l : List α, l.find? f = (l.filter f).head? := by
  intro l
  induction l with
  | nil => rfl
  | cons a l ih =>
    by_cases ha : f a
    · rw [List.find?_cons_of_pos _ ha, List.filter_cons_of_pos ha, List.head?_cons]
    · rw [List.find?_cons_of_neg _ ha, List.filter_cons_of_neg ha, ih]

/-! ## Claims -/

/-- Claim C1: for every pair of locators whose version strings parse as
semantic versions, `CheckUpdatePackage` succeeds exactly when repository
and name agree and the source version is strictly below the target under
semantic-version precedence; for any other such pair it returns a
bad-parameter error. -/
theorem checkUpdatePackage_spec (fromLoc toLoc : Locator) (vf vt : SemVer)
    (hf : SemVer.parse fromLoc.Version = some vf)
    (ht : SemVer.parse toLoc.Version = some vt) :
    (CheckUpdatePackage fromLoc toLoc = .ok () ↔
      (fromLoc.Repository = toLoc.Repository ∧ fromLoc.Name = toLoc.Name ∧
        semverCompare vf vt = .lt)) ∧
    (¬ (fromLoc.Repository = toLoc.Repository ∧ fromLoc.Name = toLoc.Name ∧
        semverCompare vf vt = .lt) →
      ∃ msg, CheckUpdatePackage fromLoc toLoc = .error (.badParameter msg)) := by
  unfold CheckUpdatePackage
  by_cases hmm : fromLoc.Repository ≠ toLoc.Repository ∨ fromLoc.Name ≠ toLoc.Name
  · rw [if_pos hmm]
    constructor
    · constructor
      · intro h; exact nomatch h
      · rintro ⟨h1, h2, _⟩
        rcases hmm with h | h
        · exact absurd h1 h
        · exact absurd h2 h
    · intro _; exact ⟨_, rfl⟩
  · rw [if_neg hmm]
    push_neg at hmm
    obtain ⟨hr, hn⟩ := hmm
    simp only [hf, ht]
    by_cases hlt : semverCompare vf vt = .lt
    · rw [if_neg (fun hne => hne hlt)]
      constructor
      · constructor
        · intro _; exact ⟨hr, hn, hlt⟩
        · intro _; rfl
      · intro hcon; exact absurd ⟨hr, hn, hlt⟩ hcon
    · rw [if_pos hlt]
      constructor
      · constructor
        · intro h; exact nomatch h
        · rintro ⟨_, _, h3⟩; exact absurd h3 hlt
      · intro _; exact ⟨_, rfl⟩

/-- Witness for C1: upgrading 1.0.0 to 1.2.0 within one line succeeds. -/
theorem checkUpdatePackage_spec_witness :
    CheckUpdatePackage ⟨"r", "app", "1.0.0"⟩ ⟨"r", "app", "1.2.0"⟩ = .ok () := by
  have h := checkUpdatePackage_spec ⟨"r", "app", "1.0.0"⟩ ⟨"r", "app", "1.2.0"⟩
    ⟨1, 0, 0, "", ""⟩ ⟨1, 2, 0, "", ""⟩ (by decide) (by decide)
  exact h.1.mpr ⟨rfl, rfl, by decide⟩

/-- Counterexample to C6 as stated: with two envelopes both satisfying the
predicate, `FindPackage` returns the LAST one in store enumeration order,
not the first. -/
theorem findPackage_first_counterexample :
    (enumRepos c6store (GetRepositories c6store)).filter (fun _ => true) = [c6e1, c6e2] ∧
    FindPackage c6store (fun _ => true) = .ok c6e2 ∧
    c6e1 ≠ c6e2 :=
  ⟨rfl, rfl, by decide⟩

/-- Claim C6 (amended): `FindPackage` returns the last envelope in store
enumeration order (repositories in `GetRepositories` order, packages in
`GetPackages` order) satisfying the predicate, and a not-found error when
no envelope satisfies it. -/
theorem findPackage_returns_last (p : PackageService) (fn : PackageEnvelope → Bool) :
    FindPackage p fn =
      match ((enumRepos p (GetRepositories p)).filter fn).getLast? with
      | none => .error (.notFound ("package not found"))
      | some e => .ok e :=
  findPackage_eq_lastMatch p fn

/-- Counterexample to C3 as stated: a matching envelope whose version does
not parse is adopted as the first maximum and survives the whole scan, so
the scan returns it although a parsable matching envelope exists. -/
theorem findLatest_skip_counterexample :
    FindLatestPackagePredicate c3store ("r") (fun _ => true) = .ok c3bad.Locator ∧
    SemVer.parse c3bad.Locator.Version = none ∧
    c3good ∈ enumEnvs c3store ("r") ∧
    SemVer.parse c3good.Locator.Version = some ⟨1, 0, 0, "", ""⟩ ∧
    c3bad.Locator ≠ c3good.Locator :=
  ⟨rfl, rfl, by decide, rfl, by decide⟩

/-- Claim C3 (amended): the latest-package scan never fails because of an
unparsable envelope — its only error is the not-found outcome; and whenever
the FIRST matching envelope's version parses, the result is a matching
envelope whose version parses and is maximal among the parsable matches.
(When the first matching envelope's version does not parse, that envelope
itself is returned and kept as the maximum — see the counterexample.) -/
theorem findLatest_skips_unparsable (p : PackageService) (repository : String)
    (f : PackageEnvelope → Bool) :
    (∀ err, FindLatestPackagePredicate p repository f = .error err →
      err = .notFound ("latest package not found")) ∧
    (∀ e0 v0, (enumEnvs p repository).find? f = some e0 →
      SemVer.parse e0.Locator.Version = some v0 →
      ∃ e ve,
        FindLatestPackagePredicate p repository f = .ok e.Locator ∧
        e ∈ enumEnvs p repository ∧ f e = true ∧
        SemVer.parse e.Locator.Version = some ve ∧
        ∀ e' ∈ enumEnvs p repository, f e' = true →
          ∀ ve', SemVer.parse e'.Locator.Version = some ve' →
            semverCompare ve' ve ≠ .gt) := by
  constructor
  · intro err herr
    rw [findLatest_eq_fold] at herr
    cases hfold : List.foldl (latestStep f) none (enumEnvs p repository) with
    | none =>
      rw [hfold] at herr
      injection herr with h
      exact h.symm
    | some m => rw [hfold] at herr; exact nomatch herr
  · intro e0 v0 hfind hp0
    obtain ⟨e, ve, hfold, hel, hfe, hpe, hmax⟩ :=
      latestFold_first f (enumEnvs p repository) e0 v0 hfind hp0
    refine ⟨e, ve, ?_, hel, hfe, hpe, hmax⟩
    rw [findLatest_eq_fold, hfold]

/-- Witness for C3 at a store whose first matching envelope parses. -/
theorem findLatest_skips_unparsable_witness :
    ∃ e ve,
      FindLatestPackagePredicate c3wstore ("r") (fun _ => true) = .ok e.Locator ∧
      e ∈ enumEnvs c3wstore ("r") ∧ (fun (_ : PackageEnvelope) => true) e = true ∧
      SemVer.parse e.Locator.Version = some ve ∧
      ∀ e' ∈ enumEnvs c3wstore ("r"), (fun (_ : PackageEnvelope) => true) e' = true →
        ∀ ve', SemVer.parse e'.Locator.Version = some ve' →
          semverCompare ve' ve ≠ .gt :=
  (findLatest_skips_unparsable c3wstore ("r") (fun _ => true)).2 c3wa
    ⟨1, 0, 0, "", ""⟩ rfl rfl

/-- Claim C2: when the matching envelopes of the scanned enumeration are,
in any order, exactly three envelopes at versions a < b < c, the
latest-package scan returns the locator of the envelope at c — the result
does not depend on the enumeration order. -/
theorem findLatest_three (p : PackageService) (repository : String)
    (f : PackageEnvelope → Bool) (ea eb ec : PackageEnvelope) (va vb vc : SemVer)
    (ha : SemVer.parse ea.Locator.Version = some va)
    (hb : SemVer.parse eb.Locator.Version = some vb)
    (hc : SemVer.parse ec.Locator.Version = some vc)
    (hab : semverCompare va vb = .lt) (hbc : semverCompare vb vc = .lt)
    (hperm : List.Perm ((enumEnvs p repository).filter f) [ea, eb, ec]) :
    FindLatestPackagePredicate p repository f = .ok ec.Locator := by
  have hac : semverCompare va vc = .lt := semverCompareLaws.lt_trans _ _ _ hab hbc
  have hne : (enumEnvs p repository).filter f ≠ [] := by
    intro hnil
    rw [hnil] at hperm
    simpa using hperm.length_eq
  obtain ⟨e0, he0⟩ : ∃ e0, ((enumEnvs p repository).filter f).head? = some e0 := by
    cases hl : (enumEnvs p repository).filter f with
    | nil => exact absurd hl hne
    | cons x xs => exact ⟨x, rfl⟩
  have hfind : (enumEnvs p repository).find? f = some e0 := by
    rw [find?_eq_head_filter, he0]
  have he0f : e0 ∈ (enumEnvs p repository).filter f := by
    cases hl : (enumEnvs p repository).filter f with
    | nil => exact absurd hl hne
    | cons x xs =>
      rw [hl] at he0
      rw [← Option.some.inj he0]
      exact List.mem_cons_self x xs
  have he0mem : e0 = ea ∨ e0 = eb ∨ e0 = ec := by
    simpa using hperm.mem_iff.mp he0f
  obtain ⟨v0, hp0⟩ : ∃ v0, SemVer.parse e0.Locator.Version = some v0 := by
    rcases he0mem with rfl | rfl | rfl
    · exact ⟨va, ha⟩
    · exact ⟨vb, hb⟩
    · exact ⟨vc, hc⟩
  have hecf : ec ∈ (enumEnvs p repository).filter f := hperm.mem_iff.mpr (by simp)
  obtain ⟨hecmem, hecfe⟩ := List.mem_filter.mp hecf
  obtain ⟨e, ve, hfold, hel, hfe, hpe, hmax⟩ :=
    latestFold_first f (enumEnvs p repository) e0 v0 hfind hp0
  have hresult : FindLatestPackagePredicate p repository f = .ok e.Locator := by
    rw [findLatest_eq_fold, hfold]
  have hmaxc : semverCompare vc ve ≠ .gt := hmax ec hecmem hecfe vc hc
  have hemem : e = ea ∨ e = eb ∨ e = ec := by
    simpa using hperm.mem_iff.mp (List.mem_filter.mpr ⟨hel, hfe⟩)
  rcases hemem with rfl | rfl | rfl
  · rw [ha] at hpe
    rw [← Option.some.inj hpe] at hmaxc
    exact absurd ((semverCompareLaws.gt_iff vc va).mpr hac) hmaxc
  · rw [hb] at hpe
    rw [← Option.some.inj hpe] at hmaxc
    exact absurd ((semverCompareLaws.gt_iff vc vb).mpr hbc) hmaxc
  · exact hresult

/-- Witness for C2 at a store enumerating the three versions in the order
2.0.0, 1.0.0, 1.1.0: the scan still returns 2.0.0. -/
theorem findLatest_three_witness :
    FindLatestPackagePredicate c2store ("r") (fun _ => true) = .ok c2ec.Locator :=
  findLatest_three c2store ("r") (fun _ => true) c2ea c2eb c2ec
    ⟨1, 0, 0, "", ""⟩ ⟨1, 1, 0, "", ""⟩ ⟨2, 0, 0, "", ""⟩
    rfl rfl rfl (by decide) (by decide) (by decide)

/-- Claim C5: for a package whose version parses, over a store where the
latest-package lookup resolves to a locator whose version parses:
`FindPackageUpdate` yields the descriptor from the package to the latest
locator when the latest version is strictly greater, and a not-found error
otherwise (in particular when the versions are equal). -/
theorem findPackageUpdate_spec (p : PackageService) (pkg latest : Locator)
    (cur vl : SemVer)
    (hl : FindLatestPackage p pkg = .ok latest)
    (hc : SemVer.parse pkg.Version = some cur)
    (hv : SemVer.parse latest.Version = some vl) :
    (semverCompare vl cur = .gt → FindPackageUpdate p pkg = .ok ⟨pkg, latest⟩) ∧
    (semverCompare vl cur ≠ .gt →
      FindPackageUpdate p pkg =
        .error (.notFound (pkg.toStr ++ (" is already at the latest version")))) := by
  unfold FindPackageUpdate
  rw [hl]
  simp only [hc, hv]
  constructor
  · intro hgt; rw [if_pos hgt]
  · intro hle; rw [if_neg hle]

/-- Witness for C5: 1.0.0 updates to 1.2.0. -/
theorem findPackageUpdate_spec_witness :
    FindPackageUpdate c5store ⟨"r", "app", "1.0.0"⟩ =
      .ok ⟨⟨"r", "app", "1.0.0"⟩, ⟨"r", "app", "1.2.0"⟩⟩ :=
  (findPackageUpdate_spec c5store ⟨"r", "app", "1.0.0"⟩ ⟨"r", "app", "1.2.0"⟩
    ⟨1, 0, 0, "", ""⟩ ⟨1, 2, 0, "", ""⟩ (by decide) rfl rfl).1 (by decide)

/-- Counterexample to C7 as stated: a single envelope with an unparsable
version makes the whole `FindNewerPackages` call return the wrapped parse
error instead of being skipped. -/
theorem findNewer_counterexample :
    FindNewerPackages c7store ⟨"r", "n", "1.0.0"⟩ =
      .error (.malformedVersion ("bad")) ∧
    c7good ∈ GetPackages c7store ("r") ∧
    SemVer.parse c7good.Locator.Version = some ⟨1, 5, 0, "", ""⟩ :=
  ⟨rfl, by decide, rfl⟩

theorem newerFold_abort (filter : Locator) (e : PackageEnvelope)
    (l₂ : List PackageEnvelope) (vf : SemVer)
    (hname : e.Locator.Name = filter.Name)
    (hvf : SemVer.parse filter.Version = some vf)
    (hbad : SemVer.parse e.Locator.Version = none) :
    ∀ (l₁ : List PackageEnvelope) (s : List Locator),
      (∀ e' ∈ l₁, e'.Locator.Name = filter.Name →
        ∃ v', SemVer.parse e'.Locator.Version = some v') →
      foldE (fun s e => newerStep filter e s) s (l₁ ++ e :: l₂) =
        .error (.malformedVersion e.Locator.Version) := by
  intro l₁
  induction l₁ with
  | nil =>
    intro s _
    rw [List.nil_append, foldE_cons]
    have hstep : newerStep filter e s = .error (.malformedVersion e.Locator.Version) := by
      unfold newerStep
      rw [if_neg (fun hne => hne hname)]
      simp only [hvf, hbad]
    rw [hstep]
  | cons a l₁ ih =>
    intro s hpre
    rw [List.cons_append, foldE_cons]
    by_cases hn : a.Locator.Name = filter.Name
    · obtain ⟨v', hv'⟩ := hpre a (List.mem_cons_self a l₁) hn
      have hstep : newerStep filter a s =
          .ok (if semverCompare v' vf = .gt then s ++ [a.Locator] else s) := by
        unfold newerStep
        rw [if_neg (fun hne => hne hn)]
        simp only [hvf, hv']
      rw [hstep]
      exact ih _ (fun e' he' => hpre e' (List.mem_cons_of_mem a he'))
    · have hstep : newerStep filter a s = .ok s := by
        unfold newerStep
        rw [if_pos hn]
      rw [hstep]
      exact ih s (fun e' he' => hpre e' (List.mem_cons_of_mem a he'))

/-- Claim C7 (amended): in `FindNewerPackages` an envelope with an
unparsable version is NOT skipped — when the filter's version parses and
every earlier name-matching envelope parses, the first name-matching
unparsable envelope aborts the scan and the whole call returns the wrapped
malformed-version error. -/
theorem findNewer_unparsable_error (p : PackageService) (filter : Locator)
    (l₁ l₂ : List PackageEnvelope) (e : PackageEnvelope) (vf : SemVer)
    (hsplit : GetPackages p filter.Repository = l₁ ++ e :: l₂)
    (hname : e.Locator.Name = filter.Name)
    (hvf : SemVer.parse filter.Version = some vf)
    (hbad : SemVer.parse e.Locator.Version = none)
    (hpre : ∀ e' ∈ l₁, e'.Locator.Name = filter.Name →
      ∃ v', SemVer.parse e'.Locator.Version = some v') :
    FindNewerPackages p filter = .error (.malformedVersion e.Locator.Version) := by
  unfold FindNewerPackages ForeachPackageInRepo
  rw [hsplit]
  exact newerFold_abort filter e l₂ vf hname hvf hbad l₁ [] hpre

/-- Witness for C7: the unparsable envelope after one parsable match aborts
the call with the malformed-version error. -/
theorem findNewer_unparsable_error_witness :
    FindNewerPackages c7store ⟨"r", "n", "1.0.0"⟩ =
      .error (.malformedVersion (("bad") : String)) := by
  have h := findNewer_unparsable_error c7store ⟨"r", "n", "1.0.0"⟩
    [c7good] [] c7bad ⟨1, 0, 0, "", ""⟩ rfl rfl rfl rfl
    (by
      intro e' he' hn
      rw [List.mem_singleton] at he'
      subst he'
      exact ⟨⟨1, 5, 0, "", ""⟩, rfl⟩)
  exact h

/-- Claim C4: dispatch rejects an empty executor with the plan-integrity
bad-parameter error; otherwise a non-update operation type with the
unsupported-operation error; otherwise a name outside the closed vocabulary
with the unknown-executor error; and for a vocabulary name under the update
operation it returns the selected constructor's result unchanged. -/
theorem fsmSpec_dispatch (c : FSMConfig) (p : ExecutorParams) :
    (p.Phase.Executor = ("") → fsmSpec c p = .error (.badParameter
      ("error in plan, executor for phase \"" ++ p.Phase.ID ++ "\" was not specified"))) ∧
    (p.Phase.Executor ≠ ("") → p.Plan.OperationType ≠ OperationUpdate →
      fsmSpec c p = .error (.badParameter
        ("unsupported operation \"" ++ p.Plan.OperationType ++ "\""))) ∧
    (p.Phase.Executor ≠ ("") → p.Plan.OperationType = OperationUpdate →
      p.Phase.Executor ∉ executorVocabulary →
      fsmSpec c p = .error (.badParameter
        ("phase \"" ++ p.Phase.ID ++ "\" requires executor \"" ++ p.Phase.Executor ++
          "\" (potential mismatch between upgrade versions)"))) ∧
    (p.Phase.Executor ≠ ("") → p.Plan.OperationType = OperationUpdate →
      p.Phase.Executor ∈ executorVocabulary →
      fsmSpec c p = ctorFor c p p.Phase.Executor) := by
  refine ⟨?_, ?_, ?_, ?_⟩
  · intro h
    unfold fsmSpec
    rw [if_pos h]
  · intro h1 h2
    unfold fsmSpec
    rw [if_neg h1, if_pos h2]
  · intro h1 h2 h3
    unfold fsmSpec
    rw [if_neg h1, if_neg (fun hne => hne h2), if_neg h3]
  · intro h1 h2 h3
    unfold fsmSpec
    rw [if_neg h1, if_neg (fun hne => hne h2), if_pos h3]

/-- Witness for C4: the update-init phase of an update plan dispatches to
the first constructor's result. -/
theorem fsmSpec_dispatch_witness :
    fsmSpec c4cfg c4params = .ok ⟨1⟩ := by
  have h := (fsmSpec_dispatch c4cfg c4params).2.2.2 (by decide) (by decide) (by decide)
  rw [h]
  rfl

theorem alookup_ainsert_self {α : Type} (m : List (String × α)) (k : String) (v : α) :
    alookup (ainsert m k v) k = some v := by
  induction m with
  | nil => simp [ainsert, alookup]
  | cons kv rest ih =>
    by_cases hk : kv.1 = k
    · simp [ainsert, hk, alookup]
    · simp [ainsert, hk, alookup, ih]

theorem alookup_ainsert_ne {α : Type} (m : List (String × α)) {k key : String} (v : α)
    (hne : k ≠ key) : alookup (ainsert m k v) key = alookup m key := by
  induction m with
  | nil => simp [ainsert, alookup, hne]
  | cons kv rest ih =>
    by_cases hk : kv.1 = k
    · simp [ainsert, hk, alookup, hne]
    · simp [ainsert, hk, alookup, ih]

/-- Claim C9 (amended): after a successful `UnpackIfNotUnpacked` into a
non-empty target, a second call is a no-op returning success with the world
unchanged (no read, no untar, no extraction); and when the target was not
present before the first call, the two calls together perform exactly one
extraction. -/
theorem unpackIfNotUnpacked_idem (loc : Locator) (targetDir : String) (w w1 : FSWorld)
    (hne : targetDir ≠ (""))
    (h1 : UnpackIfNotUnpacked loc targetDir w = (w1, .ok ())) :
    UnpackIfNotUnpacked loc targetDir w1 = (w1, .ok ()) ∧
    (alookup w.dirs targetDir = none → w1.unpackCount = w.unpackCount + 1) := by
  unfold UnpackIfNotUnpacked at h1
  cases halk : alookup w.dirs targetDir with
  | some b =>
    cases b with
    | true =>
      have hiu : IsUnpacked w targetDir = .ok true := by
        unfold IsUnpacked; rw [halk]
      rw [hiu] at h1
      have hw : w = w1 := congrArg Prod.fst h1
      subst hw
      constructor
      · unfold UnpackIfNotUnpacked
        rw [hiu]
      · intro h; exact absurd h (by decide)
    | false =>
      have hiu : IsUnpacked w targetDir =
          .error (.ioErr (("expected ") ++ targetDir ++ (" to be a directory"))) := by
        unfold IsUnpacked; rw [halk]
      rw [hiu] at h1
      have hsnd := congrArg Prod.snd h1
      simp at hsnd
  | none =>
    have hiu : IsUnpacked w targetDir = .ok false := by
      unfold IsUnpacked; rw [halk]
    rw [hiu] at h1
    unfold Unpack at h1
    rw [if_neg hne] at h1
    dsimp only at h1
    rw [halk] at h1
    dsimp only at h1
    cases hrd : w.readPackageRes loc with
    | error e =>
      rw [hrd] at h1
      dsimp only at h1
      have hsnd := congrArg Prod.snd h1
      simp at hsnd
    | ok u =>
      rw [hrd] at h1
      dsimp only at h1
      cases hut : w.untarRes with
      | error e =>
        rw [hut] at h1
        dsimp only at h1
        have hsnd := congrArg Prod.snd h1
        simp at hsnd
      | ok u' =>
        rw [hut] at h1
        dsimp only at h1
        rw [Prod.mk.injEq] at h1
        obtain ⟨hw1, -⟩ := h1
        constructor
        · rw [← hw1]
          unfold UnpackIfNotUnpacked IsUnpacked
          dsimp only
          rw [alookup_ainsert_self]
        · intro _
          rw [← hw1]

/-- Counterexample to C9 as stated: when the target directory already
exists, two successive calls both succeed and perform zero extractions —
not exactly one. -/
theorem unpack_idem_counterexample :
    (UnpackIfNotUnpacked c9loc ("/t") c9world).2 = .ok () ∧
    (UnpackIfNotUnpacked c9loc ("/t")
      (UnpackIfNotUnpacked c9loc ("/t") c9world).1).2 = .ok () ∧
    (UnpackIfNotUnpacked c9loc ("/t")
      (UnpackIfNotUnpacked c9loc ("/t") c9world).1).1.unpackCount = 0 ∧
    c9world.unpackCount = 0 :=
  ⟨rfl, rfl, rfl, rfl⟩

/-- Witness for C9: a fresh target is extracted exactly once by the first
call and the second call is a no-op returning success. -/
theorem unpackIfNotUnpacked_idem_witness :
    UnpackIfNotUnpacked c9loc ("/t")
        ((UnpackIfNotUnpacked c9loc ("/t") c9fresh).1) =
      ((UnpackIfNotUnpacked c9loc ("/t") c9fresh).1, .ok ()) ∧
    (UnpackIfNotUnpacked c9loc ("/t") c9fresh).1.unpackCount =
      c9fresh.unpackCount + 1 := by
  have h := unpackIfNotUnpacked_idem c9loc ("/t") c9fresh
    ((UnpackIfNotUnpacked c9loc ("/t") c9fresh).1) (by decide) rfl
  exact ⟨h.1, h.2 rfl⟩

theorem alookup_eq_none_of_not_mem {α : Type} (m : List (String × α)) (key : String)
    (h : key ∉ m.map Prod.fst) : alookup m key = none := by
  induction m with
  | nil => rfl
  | cons kv rest ih =>
    rw [List.map_cons, List.mem_cons] at h
    push_neg at h
    unfold alookup
    rw [if_neg (fun he => h.1 he.symm)]
    exact ih h.2

theorem alookup_configFold (labels : Labels) :
    ∀ (base : Labels) (key : String),
      (labels.map Prod.fst).Nodup →
      alookup (labels.foldl (fun m kv => ainsert m kv.1 kv.2) base) key =
        match alookup labels key with
        | some v => some v
        | none => alookup base key := by
  induction labels with
  | nil => intro base key _; rfl
  | cons kv rest ih =>
    intro base key hnd
    rw [List.map_cons, List.nodup_cons] at hnd
    obtain ⟨hna, hnd'⟩ := hnd
    rw [List.foldl_cons]
    rw [ih (ainsert base kv.1 kv.2) key hnd']
    by_cases hk : kv.1 = key
    · subst hk
      have hrest : alookup rest kv.1 = none :=
        alookup_eq_none_of_not_mem rest kv.1 hna
      rw [hrest]
      have hhead : alookup (kv :: rest) kv.1 = some kv.2 := by
        unfold alookup; rw [if_pos rfl]
      rw [hhead]
      exact alookup_ainsert_self base kv.1 kv.2
    · have hhead : alookup (kv :: rest) key = alookup rest key := by
        simp [alookup, hk]
      rw [hhead, alookup_ainsert_ne base kv.2 hk]

/-- Claim C10: the label set `ConfigurePackage` attaches starts from the
canonical config-ownership entry and inserts every caller label over it;
hence a caller label map containing the `config` key replaces the canonical
zero-version value on the created package. -/
theorem configurePackage_label_override (p : PackageService) (loc confLoc : Locator)
    (args : List String) (labels : Labels) (v : String)
    (hnd : (labels.map Prod.fst).Nodup)
    (hv : alookup labels ConfigLabel = some v) :
    alookup (configureLabels loc labels) ConfigLabel = some v ∧
    (GetConfigPackage p loc confLoc args = .ok () →
      ConfigurePackage p loc confLoc args labels =
        .ok (CreatePackage p confLoc (configureLabels loc labels))) := by
  constructor
  · unfold configureLabels
    rw [alookup_configFold labels [(ConfigLabel, loc.ZeroVersion.toStr)] ConfigLabel hnd,
      hv]
  · intro hok
    unfold ConfigurePackage
    rw [hok]

/-- Witness for C10: a caller-supplied config label replaces the canonical
value, and the configured store commits exactly that label set. -/
theorem configurePackage_label_override_witness :
    alookup (configureLabels ⟨"r", "app", "1.0.0"⟩ [("config", "custom")])
      ConfigLabel = some ("custom") ∧
    ConfigurePackage c10store ⟨"r", "app", "1.0.0"⟩ ⟨"r", "cfg", "1.0.0"⟩ []
        [("config", "custom")] =
      .ok (CreatePackage c10store ⟨"r", "cfg", "1.0.0"⟩
        (configureLabels ⟨"r", "app", "1.0.0"⟩ [("config", "custom")])) := by
  have h := configurePackage_label_override c10store ⟨"r", "app", "1.0.0"⟩
    ⟨"r", "cfg", "1.0.0"⟩ [] [("config", "custom")] ("custom") (by decide) rfl
  exact ⟨h.1, h.2 rfl⟩

theorem alookup_mem_nodup {α : Type} :
    ∀ (m : List (String × α)), (m.map Prod.fst).Nodup →
      ∀ kv ∈ m, alookup m kv.1 = some kv.2 := by
  intro m
  induction m with
  | nil => intro _ kv hkv; exact absurd hkv (List.not_mem_nil kv)
  | cons a rest ih =>
    intro hnd kv hkv
    rw [List.map_cons, List.nodup_cons] at hnd
    obtain ⟨hna, hnd'⟩ := hnd
    rcases List.mem_cons.mp hkv with rfl | hmem
    · unfold alookup; rw [if_pos rfl]
    · have hk : a.1 ≠ kv.1 := by
        intro he
        exact hna (he ▸ List.mem_map_of_mem Prod.fst hmem)
      have : alookup (a :: rest) kv.1 = alookup rest kv.1 := by
        simp [alookup, hk]
      rw [this]
      exact ih hnd' kv hmem

theorem enumRepos_eq_flatten_aux (p : PackageService) :
    ∀ (l : List (String × List PackageEnvelope)),
      (∀ rp ∈ l, GetPackages p rp.1 = rp.2) →
      enumRepos p (l.map Prod.fst) = flattenSnd l := by
  intro l
  induction l with
  | nil => intro _; rfl
  | cons rp rest ih =>
    intro h
    rw [List.map_cons]
    rw [show enumRepos p (rp.1 :: rest.map Prod.fst) =
      GetPackages p rp.1 ++ enumRepos p (rest.map Prod.fst) from rfl]
    rw [h rp (List.mem_cons_self rp rest),
      ih (fun rp' h' => h rp' (List.mem_cons_of_mem rp h'))]
    rfl

theorem enumRepos_eq_flatten (p : PackageService)
    (hnd : (p.repos.map Prod.fst).Nodup) :
    enumRepos p (GetRepositories p) = flattenSnd p.repos := by
  unfold GetRepositories
  refine enumRepos_eq_flatten_aux p p.repos (fun rp h => ?_)
  unfold GetPackages
  rw [alookup_mem_nodup p.repos hnd rp h]
  rfl

theorem flattenSnd_addToRepo (repo : String) (e : PackageEnvelope) :
    ∀ rps : List (String × List PackageEnvelope),
      ∃ l₁ l₂, flattenSnd (addToRepo rps repo e) = l₁ ++ e :: l₂ ∧
        flattenSnd rps = l₁ ++ l₂ := by
  intro rps
  induction rps with
  | nil => exact ⟨[], [], rfl, rfl⟩
  | cons rp rest ih =>
    by_cases hr : rp.1 = repo
    · refine ⟨rp.2, flattenSnd rest, ?_, rfl⟩
      unfold addToRepo
      rw [if_pos hr]
      show (rp.2 ++ [e]) ++ flattenSnd rest = rp.2 ++ e :: flattenSnd rest
      rw [List.append_assoc]
      rfl
    · obtain ⟨l₁, l₂, h1, h2⟩ := ih
      refine ⟨rp.2 ++ l₁, l₂, ?_, ?_⟩
      · unfold addToRepo
        rw [if_neg hr]
        show rp.2 ++ flattenSnd (addToRepo rest repo e) = (rp.2 ++ l₁) ++ e :: l₂
        rw [h1, List.append_assoc]
      · show rp.2 ++ flattenSnd rest = (rp.2 ++ l₁) ++ l₂
        rw [h2, List.append_assoc]

theorem addToRepo_fst (repo : String) (e : PackageEnvelope) :
    ∀ rps : List (String × List PackageEnvelope),
      (addToRepo rps repo e).map Prod.fst = rps.map Prod.fst ∨
      ((addToRepo rps repo e).map Prod.fst = rps.map Prod.fst ++ [repo] ∧
        repo ∉ rps.map Prod.fst) := by
  intro rps
  induction rps with
  | nil => exact Or.inr ⟨rfl, List.not_mem_nil repo⟩
  | cons rp rest ih =>
    by_cases hr : rp.1 = repo
    · left
      unfold addToRepo
      rw [if_pos hr]
      rfl
    · unfold addToRepo
      rw [if_neg hr]
      rcases ih with h | ⟨h, hmem⟩
      · left
        rw [List.map_cons, h, List.map_cons]
      · right
        constructor
        · rw [List.map_cons, h, List.map_cons, List.cons_append]
        · rw [List.map_cons, List.mem_cons]
          push_neg
          exact ⟨fun he => hr he.symm, hmem⟩

theorem addToRepo_nodup (repo : String) (e : PackageEnvelope)
    (rps : List (String × List PackageEnvelope))
    (hnd : (rps.map Prod.fst).Nodup) :
    ((addToRepo rps repo e).map Prod.fst).Nodup := by
  rcases addToRepo_fst repo e rps with h | ⟨h, hmem⟩
  · rw [h]; exact hnd
  · rw [h, List.nodup_append]
    refine ⟨hnd, List.nodup_singleton repo, ?_⟩
    intro a ha hb
    rw [List.mem_singleton] at hb
    subst hb
    exact hmem ha

/-- Counterexample to C8 as stated: caller labels containing the `config`
key override the canonical zero-version value, so after a successful
creation the lookup for the owning line fails instead of returning the
created locator. -/
theorem configRoundTrip_counterexample :
    ConfigurePackage c8store c8loc c8conf [] [("config", "x")] =
      .ok (CreatePackage c8store c8conf (configureLabels c8loc [("config", "x")])) ∧
    FindConfigPackage
        (CreatePackage c8store c8conf (configureLabels c8loc [("config", "x")]))
        c8loc =
      .error (.notFound ("no configuration package for r/app:1.0.0 found")) :=
  ⟨rfl, rfl⟩

/-- Claim C8 (amended): when the caller labels do not shadow the `config`
key, a configuration package committed by `ConfigurePackage` into a store
holding no other package labeled with the line's zero-version string is
found again by `FindConfigPackage` for that line — the result is exactly
the created locator; and for every other line with a different zero-version
string the lookup is unchanged by the creation (in particular it never
returns the created package). -/
theorem configFindRoundTrip (p p2 : PackageService) (loc confLoc loc2 : Locator)
    (args : List String) (labels : Labels)
    (hndr : (p.repos.map Prod.fst).Nodup)
    (hndl : (labels.map Prod.fst).Nodup)
    (hnoc : alookup labels ConfigLabel = none)
    (hclean : ∀ e ∈ enumRepos p (GetRepositories p),
      e.HasLabel ConfigLabel loc.ZeroVersion.toStr = false)
    (hcreate : ConfigurePackage p loc confLoc args labels = .ok p2) :
    FindConfigPackage p2 loc = .ok confLoc ∧
    (loc2.ZeroVersion.toStr ≠ loc.ZeroVersion.toStr →
      FindConfigPackage p2 loc2 = FindConfigPackage p loc2) := by
  have hp2 : p2 = CreatePackage p confLoc (configureLabels loc labels) := by
    unfold ConfigurePackage at hcreate
    cases hg : GetConfigPackage p loc confLoc args with
    | error e => rw [hg] at hcreate; exact nomatch hcreate
    | ok u => rw [hg] at hcreate; exact (Except.ok.inj hcreate).symm
  subst hp2
  have hlab : alookup (configureLabels loc labels) ConfigLabel =
      some loc.ZeroVersion.toStr := by
    unfold configureLabels
    rw [alookup_configFold labels [(ConfigLabel, loc.ZeroVersion.toStr)]
      ConfigLabel hndl, hnoc]
    simp [alookup]
  have hnd2 : (((CreatePackage p confLoc (configureLabels loc labels)).repos).map
      Prod.fst).Nodup :=
    addToRepo_nodup confLoc.Repository ⟨confLoc, configureLabels loc labels⟩
      p.repos hndr
  obtain ⟨l₁, l₂, hsplit, hold⟩ :=
    flattenSnd_addToRepo confLoc.Repository
      ⟨confLoc, configureLabels loc labels⟩ p.repos
  have henum2 : enumRepos (CreatePackage p confLoc (configureLabels loc labels))
      (GetRepositories (CreatePackage p confLoc (configureLabels loc labels))) =
      l₁ ++ ⟨confLoc, configureLabels loc labels⟩ :: l₂ := by
    rw [enumRepos_eq_flatten _ hnd2]
    exact hsplit
  have holdenum : enumRepos p (GetRepositories p) = l₁ ++ l₂ := by
    rw [enumRepos_eq_flatten p hndr]; exact hold
  have hmem1 : ∀ e ∈ l₁, e ∈ enumRepos p (GetRepositories p) := by
    intro e he; rw [holdenum]; exact List.mem_append_left l₂ he
  have hmem2 : ∀ e ∈ l₂, e ∈ enumRepos p (GetRepositories p) := by
    intro e he; rw [holdenum]; exact List.mem_append_right l₁ he
  constructor
  · unfold FindConfigPackage
    rw [findPackage_eq_lastMatch, henum2]
    have hf1 : l₁.filter (fun e => e.HasLabel ConfigLabel loc.ZeroVersion.toStr) = [] :=
      List.filter_eq_nil_iff.mpr (fun e he => by simp [hclean e (hmem1 e he)])
    have hf2 : l₂.filter (fun e => e.HasLabel ConfigLabel loc.ZeroVersion.toStr) = [] :=
      List.filter_eq_nil_iff.mpr (fun e he => by simp [hclean e (hmem2 e he)])
    have hfn : (⟨confLoc, configureLabels loc labels⟩ : PackageEnvelope).HasLabel
        ConfigLabel loc.ZeroVersion.toStr = true := by
      unfold PackageEnvelope.HasLabel
      dsimp only
      rw [hlab]
      simp
    rw [List.filter_append, hf1]
    simp only [List.filter_cons, hfn, if_true, hf2]
    rfl
  · intro hzne
    have hneg : (⟨confLoc, configureLabels loc labels⟩ : PackageEnvelope).HasLabel
        ConfigLabel loc2.ZeroVersion.toStr = false := by
      unfold PackageEnvelope.HasLabel
      dsimp only
      rw [hlab]
      rw [beq_eq_false_iff_ne]
      intro he
      exact hzne (Option.some.inj he).symm
    have hfeq : (l₁ ++ ⟨confLoc, configureLabels loc labels⟩ :: l₂).filter
        (fun e => e.HasLabel ConfigLabel loc2.ZeroVersion.toStr) =
        (l₁ ++ l₂).filter (fun e => e.HasLabel ConfigLabel loc2.ZeroVersion.toStr) := by
      rw [List.filter_append, List.filter_append]
      simp [List.filter_cons, hneg]
    unfold FindConfigPackage
    rw [findPackage_eq_lastMatch, findPackage_eq_lastMatch, henum2, holdenum, hfeq]

/-- Witness for C8: a config package created in an empty store is found
again by the owning line's lookup. -/
theorem configFindRoundTrip_witness :
    FindConfigPackage (CreatePackage c8store c8conf (configureLabels c8loc []))
      c8loc = .ok c8conf := by
  have h := configFindRoundTrip c8store
    (CreatePackage c8store c8conf (configureLabels c8loc []))
    c8loc c8conf ⟨"r2", "other", "1.0.0"⟩ [] []
    List.nodup_nil List.nodup_nil rfl
    (fun e he => absurd he (List.not_mem_nil e))
    rfl
  exact h.1
